import Mathlib

/-!
# Vehicle movement simulator: playback engine of `script.js`

A shallow embedding of the route loader, the position sampler and the playback
clock of `src/script.js`, followed by theorems about them.

Numbers.  JavaScript numbers are modelled by exact rationals.  A value that the
script obtains from a division is an `Option ℚ`: `none` stands for the
non-numeric outcome of a division whose divisor is zero, or of arithmetic on a
field that is `undefined`.  Where the script can produce such a value the
numerator is never negative, so the value is `NaN` or `+Infinity`, and it stays
non-numeric through the sums, products and `Math.max(0, ·)` that follow, as in
JavaScript; a comparison with `NaN` is false.  A function of the script that
can throw a `TypeError` (reading a property of `undefined`, e.g.
`rawRoute[0].time` on an empty array) returns an `Option` whose `none` is the
thrown exception.

Rounding.  The script computes in IEEE-754 doubles.  Comparisons of timestamps
and the formulas themselves do not depend on it; where a claim turns on the
rounding of a result (an exact equality or an order bound between computed
coordinates), the operation is also given in double arithmetic, through
`roundDouble`, at the end of the definitions.

The great-circle distance `haversineDistance` calls the transcendental functions
of `Math`; it is embedded over a record `JSMath` of these functions, and the
loader takes the distance function as the parameter `hav` (in the script,
`haversineDistance` itself).
-/

namespace VehicleSim

/-! ## JavaScript arithmetic on possibly non-numeric values -/

/-- The sum `a + b`; non-numeric as soon as one operand is. -/
def jsAdd : Option ℚ → Option ℚ → Option ℚ
  | some x, some y => some (x + y)
  | _, _ => none

/-- The product `a * b`; non-numeric as soon as one operand is. -/
def jsMul : Option ℚ → Option ℚ → Option ℚ
  | some x, some y => some (x * y)
  | _, _ => none

/-- The quotient `a / b`; non-numeric when an operand is, or when the divisor is zero. -/
def jsDiv : Option ℚ → Option ℚ → Option ℚ
  | some x, some y => if y = 0 then none else some (x / y)
  | _, _ => none

/-- The value of `Math.max(a, b)`; non-numeric as soon as one operand is. -/
def jsMax : Option ℚ → Option ℚ → Option ℚ
  | some x, some y => some (max x y)
  | _, _ => none

/-- The comparison `a <= b`; false as soon as one operand is not a number. -/
def jsLe : Option ℚ → Option ℚ → Bool
  | some x, some y => decide (x ≤ y)
  | _, _ => false

/-! ## Data model -/

/-- A coordinate `{lat, lng}`. -/
structure LatLng where
  lat : ℚ
  lng : ℚ
deriving DecidableEq, Repr

/-- One record of `dummy-route.json`.  The field `timestamp` is the epoch time in
milliseconds that `new Date(p.timestamp).getTime()` yields, and `none` when
`p.timestamp` is absent (falsy). -/
structure RawPoint where
  latitude : ℚ
  longitude : ℚ
  timestamp : Option ℚ
deriving DecidableEq, Repr

/-- An element of `rawRoute`.  The fields `distToNext` and `durToNext` are only
assigned by the loop of `loadRoute`; `none` is `undefined`. -/
structure Waypoint where
  lat : ℚ
  lng : ℚ
  time : ℚ
  distToNext : Option ℚ
  durToNext : Option ℚ
deriving DecidableEq, Repr

/-- The numbers that `updateUIForTime` writes to the page (before they are
formatted as text): elapsed time, current coordinate, speed, distance. -/
structure UI where
  elapsedMs : ℚ
  currentLat : Option ℚ
  currentLng : Option ℚ
  instSpeedKmh : Option ℚ
  dist : Option ℚ
deriving DecidableEq, Repr

/-- The global variables of the script after `loadRoute` has run, with the
marker position, the vertices of `livePolyline`, the numbers shown by the page
and the label of the play button (`none` until the script first sets it). -/
structure State where
  rawRoute : List Waypoint
  totalDistance : ℚ
  totalDuration : ℚ
  isPlaying : Bool
  simTime : ℚ
  lastFrameTs : Option ℚ
  speedMultiplier : ℚ
  marker : LatLng
  livePolyline : List LatLng
  ui : UI
  playLabel : Option String
deriving DecidableEq, Repr

/-! ## Position sampler -/

/-- The scan of `rawRoute.findIndex` (lines 138-141 and 178), started at index `k`:
the first index `idx`, other than the last one, with
`rawRoute[idx].time <= tms <= rawRoute[idx+1].time`. -/
def findSegFrom (tms : ℚ) : List Waypoint → Nat → Option Nat
  | a :: b :: rest, k =>
    if a.time ≤ tms ∧ tms ≤ b.time then some k else findSegFrom tms (b :: rest) (k + 1)
  | _, _ => none

/-- The result of `rawRoute.findIndex(...)`; `none` is `-1`. -/
def findSegment (r : List Waypoint) (tms : ℚ) : Option Nat :=
  findSegFrom tms r 0

/-- The loop of lines 206-215 over the waypoints from index `j` on (all but the
last one), with the running value of `dist`. -/
def distLoop (tms : ℚ) : List Waypoint → Option ℚ → Option ℚ
  | a :: b :: rest, dist =>
    if jsLe (jsAdd (some a.time) a.durToNext) (some tms) then
      distLoop tms (b :: rest) (jsAdd dist a.distToNext)
    else if a.time ≤ tms then
      jsAdd dist (jsMul a.distToNext
        (jsMax (some 0) (jsDiv (some (tms - a.time)) a.durToNext)))
    else dist
  | _, dist => dist

/-- The function `updateUIForTime(tms)` (lines 172-217); the arguments `segIndex`
and `frac` are not used by the script. -/
def updateUIForTime (r : List Waypoint) (tms : ℚ) : Option UI := do
  let first ← r[0]?
  let elapsedMs := tms - first.time
  let idx := (findSegment r tms).getD (r.length - 1)
  let coord : Option ℚ × Option ℚ ←
    if idx < r.length - 1 then do
      let p0 ← r[idx]?
      let p1 ← r[idx + 1]?
      let fraction := jsDiv (some (tms - p0.time)) (some (p1.time - p0.time))
      pure (jsAdd (some p0.lat) (jsMul (some (p1.lat - p0.lat)) fraction),
            jsAdd (some p0.lng) (jsMul (some (p1.lng - p0.lng)) fraction))
    else do
      let last ← r[r.length - 1]?
      pure (some last.lat, some last.lng)
  let instSpeedKmh : Option ℚ ←
    if idx < r.length - 1 then do
      let p ← r[idx]?
      let d := p.distToNext
      let durSec := jsMax (some 1) (jsDiv p.durToNext (some 1000))
      let mps := jsDiv d durSec
      pure (jsMul mps (some 3.6))
    else pure (some 0)
  let dist := distLoop tms r (some 0)
  pure { elapsedMs := elapsedMs, currentLat := coord.1, currentLng := coord.2,
         instSpeedKmh := instSpeedKmh, dist := dist }

/-- The vertex list of `livePolyline` after the guarded `addLatLng` of lines 163-167. -/
def appendIfMoved (path : List LatLng) (lat lng : ℚ) : List LatLng :=
  match path.getLast? with
  | none => path ++ [⟨lat, lng⟩]
  | some last => if last.lat ≠ lat ∨ last.lng ≠ lng then path ++ [⟨lat, lng⟩] else path

/-- The function `updateMarkerForSimTime(tms)` (lines 136-170). -/
def updateMarkerForSimTime (s : State) (tms : ℚ) : Option State :=
  match findSegment s.rawRoute tms with
  | none => do
    let last ← s.rawRoute[s.rawRoute.length - 1]?
    let ui ← updateUIForTime s.rawRoute tms
    pure { s with marker := ⟨last.lat, last.lng⟩,
                  livePolyline := s.livePolyline ++ [⟨last.lat, last.lng⟩],
                  ui := ui }
  | some i => do
    let p0 ← s.rawRoute[i]?
    let p1 ← s.rawRoute[i + 1]?
    let segDur := p1.time - p0.time
    let frac := if segDur = 0 then 1 else (tms - p0.time) / segDur
    let lat := p0.lat + (p1.lat - p0.lat) * frac
    let lng := p0.lng + (p1.lng - p0.lng) * frac
    let ui ← updateUIForTime s.rawRoute tms
    pure { s with marker := ⟨lat, lng⟩,
                  livePolyline := appendIfMoved s.livePolyline lat lng,
                  ui := ui }

/-! ## Route loader -/

/-- The times of lines 59-63 when every record has a timestamp, `none` otherwise
(the test `rawRoute.every(p => p.time !== null)` of line 66). -/
def parsedTimes : List RawPoint → Option (List ℚ)
  | [] => some []
  | p :: ps =>
    match p.timestamp, parsedTimes ps with
    | some t, some ts => some (t :: ts)
    | _, _ => none

/-- The time of every point after lines 59-70: the recorded timestamps, or the
synthetic timeline `t0 + idx * 5000` when a timestamp is missing; `t0` is the
value of `Date.now()`. -/
def timeline (t0 : ℚ) (arr : List RawPoint) : List ℚ :=
  match parsedTimes arr with
  | some ts => ts
  | none => (List.range arr.length).map (fun (idx : Nat) => t0 + (idx : ℚ) * 5000)

/-- The array `rawRoute` before the loop of line 74. -/
def points (t0 : ℚ) (arr : List RawPoint) : List Waypoint :=
  List.zipWith
    (fun p t => { lat := p.latitude, lng := p.longitude, time := t,
                  distToNext := none, durToNext := none })
    arr (timeline t0 arr)

/-- The assignments to `distToNext` and `durToNext` made by the loop of lines 74-81. -/
def precompute (hav : LatLng → LatLng → ℚ) : List Waypoint → List Waypoint
  | a :: b :: rest =>
    { a with distToNext := some (hav ⟨a.lat, a.lng⟩ ⟨b.lat, b.lng⟩),
             durToNext := some (b.time - a.time) } :: precompute hav (b :: rest)
  | l => l

/-- The accumulation `totalDistance += d` of the loop of lines 74-81, from the
running total `acc`. -/
def sumDistances (hav : LatLng → LatLng → ℚ) : List Waypoint → ℚ → ℚ
  | a :: b :: rest, acc =>
    sumDistances hav (b :: rest) (acc + hav ⟨a.lat, a.lng⟩ ⟨b.lat, b.lng⟩)
  | _, acc => acc

/-- The functions `loadRoute` and `initMap` (lines 55-114) on the parsed JSON
array `arr`: the state in which the first animation frame runs. -/
def loadRoute (hav : LatLng → LatLng → ℚ) (t0 : ℚ) (arr : List RawPoint) : Option State := do
  let pts := points t0 arr
  let rawRoute := precompute hav pts
  let totalDistance := sumDistances hav pts 0
  let last ← rawRoute[rawRoute.length - 1]?
  let first ← rawRoute[0]?
  let totalDuration := last.time - first.time
  let simTime := first.time
  let ui ← updateUIForTime rawRoute simTime
  pure { rawRoute := rawRoute, totalDistance := totalDistance,
         totalDuration := totalDuration, isPlaying := false, simTime := simTime,
         lastFrameTs := none, speedMultiplier := 1,
         marker := ⟨first.lat, first.lng⟩,
         livePolyline := [⟨first.lat, first.lng⟩], ui := ui, playLabel := none }

/-! ## Playback clock -/

/-- The real-time delta `dt` of lines 118-119: `lastFrameTs` is replaced by `ts`
when it is falsy (`null` or `0`). -/
def frameDelta (lastFrameTs : Option ℚ) (ts : ℚ) : ℚ :=
  match lastFrameTs with
  | none => ts - ts
  | some l => if l = 0 then ts - ts else ts - l

/-- The function `animate(ts)` (lines 117-134), one animation frame. -/
def animate (s : State) (ts : ℚ) : Option State :=
  let dt := frameDelta s.lastFrameTs ts
  let s1 := { s with lastFrameTs := some ts }
  if s1.isPlaying then do
    let sim := s1.simTime + dt * s1.speedMultiplier
    let last ← s1.rawRoute[s1.rawRoute.length - 1]?
    let s2 : State :=
      if sim ≥ last.time then
        { s1 with simTime := last.time, isPlaying := false, playLabel := some "Play" }
      else { s1 with simTime := sim }
    updateMarkerForSimTime s2 s2.simTime
  else pure s1

/-- The click handler of `playPauseBtn` (lines 220-226). -/
def togglePlay (s : State) : State :=
  let playing := !s.isPlaying
  { s with isPlaying := playing,
           playLabel := some (if playing then "Pause" else "Play"),
           lastFrameTs := if playing then none else s.lastFrameTs }

/-- The change handler of `speedSelect` (lines 227-229); `m` is
`Number(speedSelect.value)`. -/
def setSpeed (s : State) (m : ℚ) : State :=
  { s with speedMultiplier := m }

/-- The click handler of `restartBtn` (lines 230-237). -/
def restart (s : State) : Option State := do
  let first ← s.rawRoute[0]?
  let s1 : State :=
    { s with simTime := first.time,
             livePolyline := [⟨first.lat, first.lng⟩],
             marker := ⟨first.lat, first.lng⟩ }
  if !s1.isPlaying then do
    let ui ← updateUIForTime s1.rawRoute s1.simTime
    pure { s1 with ui := ui }
  else pure s1

/-- What can happen between two states: a frame or one of the three controls. -/
inductive Event where
  | frame (ts : ℚ)
  | toggle
  | speed (m : ℚ)
  | restart
deriving DecidableEq, Repr

/-- One event applied to a state. -/
def step (s : State) : Event → Option State
  | .frame ts => animate s ts
  | .toggle => some (togglePlay s)
  | .speed m => some (setSpeed s m)
  | .restart => restart s

/-- A sequence of events applied in order. -/
def run (s : State) : List Event → Option State
  | [] => some s
  | e :: es => (step s e).bind (fun s1 => run s1 es)

/-! ## Vocabulary of the specification -/

/-- The timestamps of the route are non-decreasing in waypoint order. -/
def NonDecreasing (r : List Waypoint) : Prop :=
  List.Pairwise (fun a b => a ≤ b) (r.map (fun p => p.time))

/-- Segment `j` of the route contains the time `t`:
`route[j].time ≤ t ≤ route[j+1].time`. -/
def Contains (r : List Waypoint) (t : ℚ) (j : Nat) : Prop :=
  ∃ a b, r[j]? = some a ∧ r[j + 1]? = some b ∧ a.time ≤ t ∧ t ≤ b.time

/-- Index `i` is the first segment of the route, in waypoint order, that contains `t`. -/
def FirstSegment (r : List Waypoint) (t : ℚ) (i : Nat) : Prop :=
  Contains r t i ∧ ∀ j, j < i → ¬ Contains r t j

/-- The timestamps of the animation frames among a sequence of events. -/
def frameTimes : List Event → List ℚ
  | [] => []
  | .frame ts :: es => ts :: frameTimes es
  | _ :: es => frameTimes es

/-! ## Concrete inputs used by the scenarios -/

/-- A stand-in for the great-circle distance: every segment is 111195 m long. -/
def demoHav : LatLng → LatLng → ℚ := fun _ _ => 111195

/-- The JSON of a two-point route ending at `t = 500`. -/
def demoArr : List RawPoint := [⟨0, 0, some 0⟩, ⟨0, 1, some 500⟩]

/-- The state that `loadRoute` builds from `demoArr`. -/
def demoState : State :=
  { rawRoute := [⟨0, 0, 0, some 111195, some 500⟩, ⟨0, 1, 500, none, none⟩],
    totalDistance := 111195, totalDuration := 500, isPlaying := false, simTime := 0,
    lastFrameTs := none, speedMultiplier := 1, marker := ⟨0, 0⟩, livePolyline := [⟨0, 0⟩],
    ui := ⟨0, some 0, some 0, some 400302, some 0⟩, playLabel := none }

/-- Scenario C: playing at double speed from `simTime = 0`, previous frame at 100 ms. -/
def scenarioC : State :=
  { demoState with isPlaying := true, speedMultiplier := 2, lastFrameTs := some 100 }

/-- What the loop of `loadRoute` establishes: every waypoint but the last carries
the duration to the next waypoint and a distance. -/
def Precomputed : List Waypoint → Prop
  | a :: b :: rest =>
    a.durToNext = some (b.time - a.time) ∧ (∃ d, a.distToNext = some d) ∧
      Precomputed (b :: rest)
  | _ => True

/-- Scenario A/B: the JSON of the route `(0,0)@0`, `(0,1)@10000`. -/
def scenarioArr : List RawPoint := [⟨0, 0, some 0⟩, ⟨0, 1, some 10000⟩]

/-- The state that `loadRoute` builds from `scenarioArr`. -/
def scenarioState : State :=
  { rawRoute := [⟨0, 0, 0, some 111195, some 10000⟩, ⟨0, 1, 10000, none, none⟩],
    totalDistance := 111195, totalDuration := 10000, isPlaying := false, simTime := 0,
    lastFrameTs := none, speedMultiplier := 1, marker := ⟨0, 0⟩, livePolyline := [⟨0, 0⟩],
    ui := ⟨0, some 0, some 0, some 40030.2, some 0⟩, playLabel := none }

/-- The last waypoint of the route of `scenarioState`. -/
def scenarioLast : Waypoint := ⟨0, 1, 10000, none, none⟩

/-- The JSON of a route whose last two waypoints share the timestamp 10:
`(0,0)@0`, `(1,1)@10`, `(2,2)@10`. -/
def tiedArr : List RawPoint := [⟨0, 0, some 0⟩, ⟨1, 1, some 10⟩, ⟨2, 2, some 10⟩]

/-- The state that `loadRoute` builds from `tiedArr`. -/
def tiedState : State :=
  { rawRoute := [⟨0, 0, 0, some 111195, some 10⟩, ⟨1, 1, 10, some 111195, some 0⟩,
                 ⟨2, 2, 10, none, none⟩],
    totalDistance := 222390, totalDuration := 10, isPlaying := false, simTime := 0,
    lastFrameTs := none, speedMultiplier := 1, marker := ⟨0, 0⟩, livePolyline := [⟨0, 0⟩],
    ui := ⟨0, some 0, some 0, some 400302, some 0⟩, playLabel := none }

/-- The distance traveled as the specification words it, for the segment `i`
containing `t`: the sum of `distToNext` of the segments before `i`, plus
`fraction × distToNext` of segment `i`, where `fraction` is 1 when `durToNext`
is 0 and `(t − time) / durToNext` otherwise. -/
def specDistance (r : List Waypoint) (t : ℚ) (i : Nat) : Option ℚ := do
  let p ← r[i]?
  let dur ← p.durToNext
  let fraction : ℚ := if dur = 0 then 1 else (t - p.time) / dur
  jsAdd ((r.take i).foldl (fun acc q => jsAdd acc q.distToNext) (some 0))
    (jsMul (some fraction) p.distToNext)

/-- The JSON of a route whose first two waypoints share the timestamp 0:
`(0,0)@0`, `(1,1)@0`. -/
def coincidentArr : List RawPoint := [⟨0, 0, some 0⟩, ⟨1, 1, some 0⟩]

/-- The JSON of three points without timestamps. -/
def untimedArr : List RawPoint := [⟨0, 0, none⟩, ⟨0, 1, none⟩, ⟨0, 2, none⟩]

/-- The two-point route of `demoState` while playing at double speed: the state
after the events speed 2, play, frame at 100 ms, frame at 200 ms. -/
def runningState : State :=
  { rawRoute := [⟨0, 0, 0, some 111195, some 500⟩, ⟨0, 1, 500, none, none⟩],
    totalDistance := 111195, totalDuration := 500, isPlaying := true, simTime := 200,
    lastFrameTs := some 200, speedMultiplier := 2, marker := ⟨0, 0.4⟩,
    livePolyline := [⟨0, 0⟩, ⟨0, 0.4⟩],
    ui := ⟨200, some 0, some 0.4, some 400302, some 44478⟩,
    playLabel := some "Pause" }

/-! ## Utilities -/

/-- The constant and the functions of the JavaScript `Math` object that
`haversineDistance` uses, on exact rationals. -/
structure JSMath where
  pi : ℚ
  sin : ℚ → ℚ
  cos : ℚ → ℚ
  sqrt : ℚ → ℚ
  atan2 : ℚ → ℚ → ℚ

/-- The function `haversineDistance(a, b)` (lines 5-18): metres between two
coordinates given in degrees. -/
def haversineDistance (M : JSMath) (a b : LatLng) : ℚ :=
  let R : ℚ := 6371000
  let toRad := fun d : ℚ => d * M.pi / 180
  let dLat := toRad (b.lat - a.lat)
  let dLon := toRad (b.lng - a.lng)
  let lat1 := toRad a.lat
  let lat2 := toRad b.lat
  let sinDLat := M.sin (dLat / 2)
  let sinDLon := M.sin (dLon / 2)
  let aa := sinDLat * sinDLat + M.cos lat1 * M.cos lat2 * sinDLon * sinDLon
  let c := 2 * M.atan2 (M.sqrt aa) (M.sqrt (1 - aa))
  R * c

/-- The method `padStart(n, c)` of a string, for a pad string of one character. -/
def padStart (s : String) (n : Nat) (c : Char) : String :=
  String.mk (List.replicate (n - s.length) c) ++ s

/-- The function `formatTime(ms)` (lines 19-25).  `Math.floor` of a quotient of
an integer by a positive integer is the integer division `/`, the operator `%`
is the truncated remainder `Int.tmod`, and `String(x)` of an integer is its
decimal numeral. -/
def formatTime (ms : ℚ) : String :=
  let sec : Int := Int.floor (ms / 1000)
  let h := padStart (toString (sec / 3600)) 2 '0'
  let m := padStart (toString (sec.tmod 3600 / 60)) 2 '0'
  let s := padStart (toString (sec.tmod 60)) 2 '0'
  h ++ ":" ++ m ++ ":" ++ s

/-- The number that a string of decimal digits denotes. -/
def numeralValue (s : String) : Nat :=
  s.data.foldl (fun acc c => 10 * acc + (c.toNat - 48)) 0

/-- A string of at least two characters, all of them decimal digits. -/
def IsNumeral (s : String) : Prop :=
  2 ≤ s.length ∧ ∀ c, c ∈ s.data → c.isDigit = true

/-- Polynomial stand-ins for the `Math` functions: the first terms of the series
of sine, cosine and arctangent, and a rational map fixing 0 and 1 for the
square root. -/
def polyMath : JSMath :=
  { pi := 355 / 113,
    sin := fun x => x - x ^ 3 / 6,
    cos := fun x => 1 - x ^ 2 / 2,
    sqrt := fun x => 2 * x / (1 + x),
    atan2 := fun y x => if x = 0 then 0 else y / x }

/-- The two-point route of `demoState` paused at `simTime = 200`: the state after
the events play, frame at 100 ms, frame at 300 ms, pause. -/
def pausedState : State :=
  { rawRoute := [⟨0, 0, 0, some 111195, some 500⟩, ⟨0, 1, 500, none, none⟩],
    totalDistance := 111195, totalDuration := 500, isPlaying := false, simTime := 200,
    lastFrameTs := some 300, speedMultiplier := 1, marker := ⟨0, 0.4⟩,
    livePolyline := [⟨0, 0⟩, ⟨0, 0.4⟩],
    ui := ⟨200, some 0, some 0.4, some 400302, some 44478⟩,
    playLabel := some "Play" }

/-! ## Double-precision arithmetic

The script computes in IEEE-754 doubles.  The definitions above use exact
rationals; where a claim turns on the rounding of an arithmetic result, the
operation is also given here with the rounding of doubles. -/

/-- The nearest integer to `x`, a half going to the even neighbour. -/
def roundHalfEven (x : ℚ) : Int :=
  let f := Int.floor x
  if x - f < 1 / 2 then f
  else if 1 / 2 < x - f then f + 1
  else if f % 2 = 0 then f else f + 1

/-- The number of halvings that bring `n` below 2, at most `fuel` of them: the
integer part of the binary logarithm of `n` when `fuel` is at least `n`. -/
def halvings : Nat → Nat → Nat
  | 0, _ => 0
  | fuel + 1, n => if n < 2 then 0 else halvings fuel (n / 2) + 1

/-- The binary exponent of a non-zero `x`: the `e` with `2 ^ e ≤ |x| < 2 ^ (e + 1)`. -/
def binaryExponent (x : ℚ) : Int :=
  let e0 : Int :=
    (halvings x.num.natAbs x.num.natAbs : Int) - (halvings x.den x.den : Int)
  if (2 : ℚ) ^ e0 ≤ |x| then e0 else e0 - 1

/-- The double nearest to `x` (round to nearest, ties to even, 53 significant
bits), for `x` in the normal range of doubles: the value that a JavaScript
arithmetic operation returns when its exact result is `x`. -/
def roundDouble (x : ℚ) : ℚ :=
  if x = 0 then 0
  else
    let q : ℚ := (2 : ℚ) ^ (binaryExponent x - 52)
    (roundHalfEven (x / q) : ℚ) * q

/-- The interpolation `p0 + (p1 - p0) * frac` of lines 156-157 (and 185-186) in
double arithmetic: every operation is rounded. -/
def lerpDouble (p0 p1 frac : ℚ) : ℚ :=
  roundDouble (p0 + roundDouble (roundDouble (p1 - p0) * frac))

/-- The interpolation `p0 + (p1 - p0) * frac` of lines 156-157 (and 185-186) in
exact arithmetic. -/
def lerp (p0 p1 frac : ℚ) : ℚ :=
  p0 + (p1 - p0) * frac

/-- The JSON of the route `(0.3, 0)@0`, `(0.9, 0)@10`; the latitudes are the
doubles nearest to 0.3 and 0.9, as `JSON.parse` yields them. -/
def inexactArr : List RawPoint :=
  [⟨roundDouble 0.3, 0, some 0⟩, ⟨roundDouble 0.9, 0, some 10⟩]

/-! ## The segment scan -/

theorem contains_zero (a b : Waypoint) (rest : List Waypoint) (t : ℚ) :
    Contains (a :: b :: rest) t 0 ↔ a.time ≤ t ∧ t ≤ b.time := by
  constructor
  · rintro ⟨x, y, hx, hy, h⟩
    simp at hx hy
    subst hx; subst hy; exact h
  · intro h
    exact ⟨a, b, by simp, by simp, h.1, h.2⟩

theorem contains_succ (a : Waypoint) (r : List Waypoint) (t : ℚ) (j : Nat) :
    Contains (a :: r) t (j + 1) ↔ Contains r t j := by
  simp [Contains]

theorem findSegFrom_some_iff (t : ℚ) (r : List Waypoint) (k i : Nat) :
    findSegFrom t r k = some i ↔ ∃ j, i = k + j ∧ FirstSegment r t j := by
  induction r generalizing k with
  | nil =>
    simp [findSegFrom, FirstSegment, Contains]
  | cons a r ih =>
    cases r with
    | nil =>
      simp [findSegFrom, FirstSegment, Contains]
    | cons b rest =>
      unfold findSegFrom
      by_cases h : a.time ≤ t ∧ t ≤ b.time
      · rw [if_pos h]
        constructor
        · intro hi
          refine ⟨0, by simpa using hi.symm, (contains_zero a b rest t).2 h, ?_⟩
          intro j hj; omega
        · rintro ⟨j, hj, hc, hfirst⟩
          cases j with
          | zero => simp [hj]
          | succ j => exact absurd ((contains_zero a b rest t).2 h) (hfirst 0 (by omega))
      · rw [if_neg h, ih (k + 1)]
        constructor
        · rintro ⟨j, hj, hc, hfirst⟩
          refine ⟨j + 1, by omega, (contains_succ a _ t j).2 hc, ?_⟩
          intro j' hj'
          cases j' with
          | zero => rw [contains_zero]; exact h
          | succ j' => rw [contains_succ]; exact hfirst j' (by omega)
        · rintro ⟨j, hj, hc, hfirst⟩
          cases j with
          | zero => exact absurd ((contains_zero a b rest t).1 hc) h
          | succ j =>
            refine ⟨j, by omega, (contains_succ a _ t j).1 hc, ?_⟩
            intro j' hj'
            have := hfirst (j' + 1) (by omega)
            rwa [contains_succ] at this

theorem findSegment_some_iff (r : List Waypoint) (t : ℚ) (i : Nat) :
    findSegment r t = some i ↔ FirstSegment r t i := by
  unfold findSegment
  rw [findSegFrom_some_iff]
  constructor
  · rintro ⟨j, hj, h⟩
    have : i = j := by omega
    subst this; exact h
  · intro h
    exact ⟨i, by omega, h⟩

theorem findSegFrom_none_iff (t : ℚ) (r : List Waypoint) (k : Nat) :
    findSegFrom t r k = none ↔ ∀ j, ¬ Contains r t j := by
  induction r generalizing k with
  | nil => simp [findSegFrom, Contains]
  | cons a r ih =>
    cases r with
    | nil => simp [findSegFrom, Contains]
    | cons b rest =>
      unfold findSegFrom
      by_cases h : a.time ≤ t ∧ t ≤ b.time
      · rw [if_pos h]
        simp only [false_iff, not_forall, not_not, reduceCtorEq]
        exact ⟨0, (contains_zero a b rest t).2 h⟩
      · rw [if_neg h, ih (k + 1)]
        constructor
        · intro hall j
          cases j with
          | zero => rw [contains_zero]; exact h
          | succ j => rw [contains_succ]; exact hall j
        · intro hall j
          have := hall (j + 1)
          rwa [contains_succ] at this

theorem findSegment_none_iff (r : List Waypoint) (t : ℚ) :
    findSegment r t = none ↔ ∀ j, ¬ Contains r t j :=
  findSegFrom_none_iff t r 0


theorem updateUIForTime_seg (r : List Waypoint) (t : ℚ) (i : Nat) (first p0 p1 : Waypoint)
    (hf : r[0]? = some first) (hseg : findSegment r t = some i)
    (h0 : r[i]? = some p0) (h1 : r[i + 1]? = some p1) :
    updateUIForTime r t = some
      { elapsedMs := t - first.time,
        currentLat := jsAdd (some p0.lat) (jsMul (some (p1.lat - p0.lat))
          (jsDiv (some (t - p0.time)) (some (p1.time - p0.time)))),
        currentLng := jsAdd (some p0.lng) (jsMul (some (p1.lng - p0.lng))
          (jsDiv (some (t - p0.time)) (some (p1.time - p0.time)))),
        instSpeedKmh := jsMul (jsDiv p0.distToNext
          (jsMax (some 1) (jsDiv p0.durToNext (some 1000)))) (some 3.6),
        dist := distLoop t r (some 0) } := by
  have hlt : i < r.length - 1 := by
    have := (List.getElem?_eq_some.1 h1).1
    omega
  unfold updateUIForTime
  simp only [hf, hseg, Option.getD_some, hlt, if_true, h0, h1, Option.some_bind,
    Option.bind_eq_bind, Option.pure_def]

theorem updateUIForTime_noseg (r : List Waypoint) (t : ℚ) (first last : Waypoint)
    (hf : r[0]? = some first) (hl : r[r.length - 1]? = some last)
    (hseg : findSegment r t = none) :
    updateUIForTime r t = some
      { elapsedMs := t - first.time, currentLat := some last.lat,
        currentLng := some last.lng, instSpeedKmh := some 0,
        dist := distLoop t r (some 0) } := by
  unfold updateUIForTime
  simp only [hf, hseg, Option.getD_none, lt_irrefl, if_false, hl, Option.some_bind,
    Option.bind_eq_bind, Option.pure_def]

theorem updateMarker_seg (s : State) (t : ℚ) (i : Nat) (first p0 p1 : Waypoint)
    (hf : s.rawRoute[0]? = some first) (hseg : findSegment s.rawRoute t = some i)
    (h0 : s.rawRoute[i]? = some p0) (h1 : s.rawRoute[i + 1]? = some p1) :
    ∃ ui, updateUIForTime s.rawRoute t = some ui ∧
      updateMarkerForSimTime s t = some
        { s with
          marker :=
            ⟨p0.lat + (p1.lat - p0.lat) *
                (if p1.time - p0.time = 0 then 1 else (t - p0.time) / (p1.time - p0.time)),
             p0.lng + (p1.lng - p0.lng) *
                (if p1.time - p0.time = 0 then 1 else (t - p0.time) / (p1.time - p0.time))⟩,
          livePolyline := appendIfMoved s.livePolyline
            (p0.lat + (p1.lat - p0.lat) *
                (if p1.time - p0.time = 0 then 1 else (t - p0.time) / (p1.time - p0.time)))
            (p0.lng + (p1.lng - p0.lng) *
                (if p1.time - p0.time = 0 then 1 else (t - p0.time) / (p1.time - p0.time))),
          ui := ui } := by
  refine ⟨_, updateUIForTime_seg s.rawRoute t i first p0 p1 hf hseg h0 h1, ?_⟩
  unfold updateMarkerForSimTime
  simp only [hseg, h0, h1, updateUIForTime_seg s.rawRoute t i first p0 p1 hf hseg h0 h1,
    Option.some_bind, Option.bind_eq_bind, Option.pure_def]

theorem updateMarker_noseg (s : State) (t : ℚ) (first last : Waypoint)
    (hf : s.rawRoute[0]? = some first)
    (hl : s.rawRoute[s.rawRoute.length - 1]? = some last)
    (hseg : findSegment s.rawRoute t = none) :
    ∃ ui, updateUIForTime s.rawRoute t = some ui ∧
      updateMarkerForSimTime s t = some
        { s with marker := ⟨last.lat, last.lng⟩,
                 livePolyline := s.livePolyline ++ [⟨last.lat, last.lng⟩],
                 ui := ui } := by
  refine ⟨_, updateUIForTime_noseg s.rawRoute t first last hf hl hseg, ?_⟩
  unfold updateMarkerForSimTime
  simp only [hseg, hl, updateUIForTime_noseg s.rawRoute t first last hf hl hseg,
    Option.some_bind, Option.bind_eq_bind, Option.pure_def]

/-- On a non-empty route `updateMarkerForSimTime` returns, and changes nothing but
the marker, the traveled path and the displayed numbers. -/
theorem updateMarker_total (s : State) (t : ℚ) (hne : s.rawRoute ≠ []) :
    ∃ s1, updateMarkerForSimTime s t = some s1 ∧ s1.rawRoute = s.rawRoute ∧
      s1.simTime = s.simTime ∧ s1.isPlaying = s.isPlaying ∧
      s1.speedMultiplier = s.speedMultiplier ∧ s1.lastFrameTs = s.lastFrameTs ∧
      s1.totalDistance = s.totalDistance ∧ s1.totalDuration = s.totalDuration ∧
      s1.playLabel = s.playLabel := by
  obtain ⟨first, hf⟩ : ∃ first, s.rawRoute[0]? = some first := by
    cases hr : s.rawRoute with
    | nil => exact absurd hr hne
    | cons a tl => exact ⟨a, by simp⟩
  obtain ⟨last, hl⟩ : ∃ last, s.rawRoute[s.rawRoute.length - 1]? = some last := by
    have : s.rawRoute.length - 1 < s.rawRoute.length := by
      have := List.length_pos.2 hne
      omega
    exact ⟨_, List.getElem?_eq_getElem this⟩
  cases hseg : findSegment s.rawRoute t with
  | none =>
    obtain ⟨ui, -, h⟩ := updateMarker_noseg s t first last hf hl hseg
    exact ⟨_, h, rfl, rfl, rfl, rfl, rfl, rfl, rfl, rfl⟩
  | some i =>
    obtain ⟨⟨p0, p1, h0, h1, -⟩, -⟩ := (findSegment_some_iff _ _ _).1 hseg
    obtain ⟨ui, -, h⟩ := updateMarker_seg s t i first p0 p1 hf hseg h0 h1
    exact ⟨_, h, rfl, rfl, rfl, rfl, rfl, rfl, rfl, rfl⟩

/-! ## The loader -/

theorem loadRoute_eq_some (hav : LatLng → LatLng → ℚ) (t0 : ℚ) (arr : List RawPoint)
    (s : State) (h : loadRoute hav t0 arr = some s) :
    ∃ first last ui,
      (precompute hav (points t0 arr))[0]? = some first ∧
      (precompute hav (points t0 arr))[(precompute hav (points t0 arr)).length - 1]?
        = some last ∧
      updateUIForTime (precompute hav (points t0 arr)) first.time = some ui ∧
      s = { rawRoute := precompute hav (points t0 arr),
            totalDistance := sumDistances hav (points t0 arr) 0,
            totalDuration := last.time - first.time, isPlaying := false,
            simTime := first.time, lastFrameTs := none, speedMultiplier := 1,
            marker := ⟨first.lat, first.lng⟩,
            livePolyline := [⟨first.lat, first.lng⟩], ui := ui, playLabel := none } := by
  unfold loadRoute at h
  simp only [Option.bind_eq_bind, Option.bind_eq_some, Option.pure_def, Option.some.injEq] at h
  obtain ⟨last, hl, first, hf, ui, hui, hs⟩ := h
  exact ⟨first, last, ui, hf, hl, hui, hs.symm⟩

/-! ## The playback clock -/

theorem frameDelta_nonneg (l : Option ℚ) (ts : ℚ) (h : ∀ x, l = some x → x ≤ ts) :
    0 ≤ frameDelta l ts := by
  unfold frameDelta
  cases l with
  | none => simp
  | some x =>
    have := h x rfl
    by_cases hx : x = 0
    · simp [hx]
    · simp only [hx, if_false]
      linarith

theorem animate_playing (s : State) (ts : ℚ) (last : Waypoint)
    (hlast : s.rawRoute[s.rawRoute.length - 1]? = some last) (hplay : s.isPlaying = true) :
    ∃ s1, animate s ts = some s1 ∧ s1.rawRoute = s.rawRoute ∧
      s1.speedMultiplier = s.speedMultiplier ∧ s1.lastFrameTs = some ts ∧
      (last.time ≤ s.simTime + frameDelta s.lastFrameTs ts * s.speedMultiplier →
        s1.simTime = last.time ∧ s1.isPlaying = false) ∧
      (s.simTime + frameDelta s.lastFrameTs ts * s.speedMultiplier < last.time →
        s1.simTime = s.simTime + frameDelta s.lastFrameTs ts * s.speedMultiplier ∧
        s1.isPlaying = true) := by
  have hne : s.rawRoute ≠ [] := by
    intro h
    rw [h] at hlast
    simp at hlast
  unfold animate
  simp only [hplay, if_true, hlast, Option.some_bind, Option.bind_eq_bind, ge_iff_le]
  by_cases hc : last.time ≤ s.simTime + frameDelta s.lastFrameTs ts * s.speedMultiplier
  · simp only [hc, if_true]
    obtain ⟨s1, h1, hr, hsim, hp, hm, hlf, -⟩ := updateMarker_total
      { s with lastFrameTs := some ts, simTime := last.time, isPlaying := false,
               playLabel := some "Play" } last.time hne
    refine ⟨s1, h1, hr, hm, hlf, fun _ => ⟨hsim, hp⟩, fun h => absurd hc (not_le.2 h)⟩
  · simp only [hc, if_false]
    obtain ⟨s1, h1, hr, hsim, hp, hm, hlf, -⟩ := updateMarker_total
      { s with lastFrameTs := some ts, isPlaying := true,
               simTime := s.simTime + frameDelta s.lastFrameTs ts * s.speedMultiplier }
      (s.simTime + frameDelta s.lastFrameTs ts * s.speedMultiplier) hne
    exact ⟨s1, h1, hr, hm, hlf, fun h => h.elim, fun _ => ⟨hsim, hp⟩⟩

theorem animate_paused (s : State) (ts : ℚ) (hplay : s.isPlaying = false) :
    animate s ts = some { s with lastFrameTs := some ts } := by
  unfold animate
  simp [hplay]

theorem updateUIForTime_cons (a : Waypoint) (tl : List Waypoint) (tms : ℚ) :
    ∃ ui, updateUIForTime (a :: tl) tms = some ui ∧ ui.elapsedMs = tms - a.time ∧
      ui.dist = distLoop tms (a :: tl) (some 0) := by
  unfold updateUIForTime
  simp only [List.getElem?_cons_zero, Option.some_bind, Option.bind_eq_bind]
  by_cases h : (findSegment (a :: tl) tms).getD ((a :: tl).length - 1) < (a :: tl).length - 1
  · have h0 : (findSegment (a :: tl) tms).getD ((a :: tl).length - 1) < (a :: tl).length := by omega
    have h1 : (findSegment (a :: tl) tms).getD ((a :: tl).length - 1) + 1 < (a :: tl).length := by omega
    simp only [h, if_true, List.getElem?_eq_getElem h0, List.getElem?_eq_getElem h1, Option.some_bind, Option.pure_def, Option.bind_some]
    exact ⟨_, rfl, rfl, rfl⟩
  · have h2 : (a :: tl).length - 1 < (a :: tl).length := by simp
    simp only [h, if_false, List.getElem?_eq_getElem h2, Option.some_bind, Option.pure_def, Option.bind_some]
    exact ⟨_, rfl, rfl, rfl⟩

theorem restart_total (s : State) (first : Waypoint) (hf : s.rawRoute[0]? = some first) :
    ∃ s1, restart s = some s1 ∧ s1.rawRoute = s.rawRoute ∧ s1.simTime = first.time ∧
      s1.isPlaying = s.isPlaying ∧ s1.speedMultiplier = s.speedMultiplier ∧
      s1.lastFrameTs = s.lastFrameTs ∧
      s1.livePolyline = [⟨first.lat, first.lng⟩] ∧ s1.marker = ⟨first.lat, first.lng⟩ := by
  obtain ⟨a, tl, hr⟩ : ∃ a tl, s.rawRoute = a :: tl := by
    cases hr : s.rawRoute with
    | nil => rw [hr] at hf; simp at hf
    | cons a tl => exact ⟨a, tl, rfl⟩
  obtain ⟨ui, hui, -⟩ := updateUIForTime_cons a tl first.time
  rw [← hr] at hui
  unfold restart
  simp only [hf, Option.some_bind, Option.bind_eq_bind, Option.pure_def]
  by_cases hp : s.isPlaying = true
  · simp only [hp, Bool.not_true, Bool.false_eq_true, if_false]
    refine ⟨_, rfl, ?_⟩
    simp
  · simp only [hp, Bool.not_false, if_true, hui, Option.some_bind]
    refine ⟨_, rfl, ?_⟩
    simp

theorem run_clamped (r : List Waypoint) (first last : Waypoint)
    (hf : r[0]? = some first) (hl : r[r.length - 1]? = some last)
    (hle : first.time ≤ last.time) (evs : List Event) :
    ∀ s : State, s.rawRoute = r → first.time ≤ s.simTime → s.simTime ≤ last.time →
      0 < s.speedMultiplier →
      (∀ m, Event.speed m ∈ evs → 0 < m) →
      (∀ l, s.lastFrameTs = some l → ∀ ts, ts ∈ frameTimes evs → l ≤ ts) →
      List.Pairwise (fun a b => a ≤ b) (frameTimes evs) →
      ∃ s1, run s evs = some s1 ∧ s1.rawRoute = r ∧ first.time ≤ s1.simTime ∧
        s1.simTime ≤ last.time := by
  induction evs with
  | nil =>
    intro s hr h1 h2 _ _ _ _
    exact ⟨s, rfl, hr, h1, h2⟩
  | cons e es ih =>
    intro s hr h1 h2 hm hsp hlf hfr
    cases e with
    | frame ts =>
      have hfr2 := List.pairwise_cons.1 hfr
      have hdt : 0 ≤ frameDelta s.lastFrameTs ts :=
        frameDelta_nonneg _ _ (fun x hx => hlf x hx ts (by simp [frameTimes]))
      have hstep : ∃ s1, animate s ts = some s1 ∧ s1.rawRoute = r ∧
          first.time ≤ s1.simTime ∧ s1.simTime ≤ last.time ∧
          s1.speedMultiplier = s.speedMultiplier ∧ s1.lastFrameTs = some ts := by
        cases hp : s.isPlaying with
        | false =>
          rw [animate_paused s ts hp]
          exact ⟨_, rfl, hr, h1, h2, rfl, rfl⟩
        | true =>
          obtain ⟨s1, ha, hr1, hm1, hlf1, hge, hlt⟩ :=
            animate_playing s ts last (by rw [hr]; exact hl) hp
          refine ⟨s1, ha, hr1.trans hr, ?_, ?_, hm1, hlf1⟩
          · rcases le_or_lt last.time
              (s.simTime + frameDelta s.lastFrameTs ts * s.speedMultiplier) with hc | hc
            · rw [(hge hc).1]; exact hle
            · rw [(hlt hc).1]
              have := mul_nonneg hdt hm.le
              linarith
          · rcases le_or_lt last.time
              (s.simTime + frameDelta s.lastFrameTs ts * s.speedMultiplier) with hc | hc
            · rw [(hge hc).1]
            · rw [(hlt hc).1]; exact hc.le
      obtain ⟨s1, ha, hr1, h11, h12, hm1, hlf1⟩ := hstep
      obtain ⟨s2, hrun, hres⟩ := ih s1 hr1 h11 h12 (hm1 ▸ hm)
        (fun m hmem => hsp m (List.mem_cons_of_mem _ hmem))
        (fun l hl2 ts2 hts2 => by
          rw [hlf1] at hl2
          cases hl2
          exact hfr2.1 ts2 hts2)
        hfr2.2
      exact ⟨s2, by simp [run, step, ha, hrun], hres⟩
    | toggle =>
      obtain ⟨s2, hrun, hres⟩ := ih (togglePlay s) hr h1 h2 hm
        (fun m hmem => hsp m (List.mem_cons_of_mem _ hmem))
        (fun l hl2 ts2 hts2 => by
          apply hlf l _ ts2 (by simpa [frameTimes] using hts2)
          simp only [togglePlay] at hl2
          split_ifs at hl2
          exact hl2)
        (by simpa [frameTimes] using hfr)
      exact ⟨s2, by simp [run, step, hrun], hres⟩
    | speed m =>
      obtain ⟨s2, hrun, hres⟩ := ih (setSpeed s m) hr h1 h2
        (hsp m (List.mem_cons_self _ _))
        (fun m hmem => hsp m (List.mem_cons_of_mem _ hmem))
        (fun l hl2 ts2 hts2 => hlf l hl2 ts2 (by simpa [frameTimes] using hts2))
        (by simpa [frameTimes] using hfr)
      exact ⟨s2, by simp [run, step, hrun], hres⟩
    | restart =>
      obtain ⟨s1, hres1, hr1, hsim1, -, hm1, hlf1, -⟩ :=
        restart_total s first (by rw [hr]; exact hf)
      obtain ⟨s2, hrun, hres⟩ := ih s1 (hr1.trans hr) (by rw [hsim1])
        (by rw [hsim1]; exact hle) (hm1 ▸ hm)
        (fun m hmem => hsp m (List.mem_cons_of_mem _ hmem))
        (fun l hl2 ts2 hts2 => hlf l (hlf1 ▸ hl2) ts2 (by simpa [frameTimes] using hts2))
        (by simpa [frameTimes] using hfr)
      exact ⟨s2, by simp [run, step, hres1, hrun], hres⟩

theorem nonDecreasing_first_le_last (r : List Waypoint) (first last : Waypoint)
    (hmono : NonDecreasing r) (hf : r[0]? = some first)
    (hl : r[r.length - 1]? = some last) : first.time ≤ last.time := by
  cases r with
  | nil => simp at hf
  | cons a tl =>
    simp only [List.getElem?_cons_zero, Option.some.injEq] at hf
    subst hf
    cases tl with
    | nil =>
      simp at hl
      subst hl; exact le_refl _
    | cons b tl2 =>
      have hmem : last ∈ b :: tl2 := by
        have h2 : (a :: b :: tl2).length - 1 = (b :: tl2).length - 1 + 1 := by simp
        rw [h2, List.getElem?_cons_succ] at hl
        exact List.getElem?_mem hl
      unfold NonDecreasing at hmono
      rw [List.map_cons, List.pairwise_cons] at hmono
      exact hmono.1 _ (List.mem_map_of_mem _ hmem)

/-! ## Claims about the playback clock -/

/-- C1. Clamping invariant of the playback clock: for a route loaded by `loadRoute`
with non-decreasing timestamps, every finite sequence of toggle-play, set-speed
with a positive multiplier, restart and animation frames with non-decreasing
frame timestamps runs to a state, and in that state
`first.time ≤ simTime ≤ last.time`. -/
theorem clamping_invariant (hav : LatLng → LatLng → ℚ) (t0 : ℚ) (arr : List RawPoint)
    (s0 : State) (evs : List Event)
    (hload : loadRoute hav t0 arr = some s0)
    (hmono : NonDecreasing s0.rawRoute)
    (hspeed : ∀ m, Event.speed m ∈ evs → 0 < m)
    (hframes : List.Pairwise (fun a b => a ≤ b) (frameTimes evs)) :
    ∃ s first last, run s0 evs = some s ∧ s.rawRoute = s0.rawRoute ∧
      s.rawRoute[0]? = some first ∧ s.rawRoute[s.rawRoute.length - 1]? = some last ∧
      first.time ≤ s.simTime ∧ s.simTime ≤ last.time := by
  obtain ⟨first, last, ui, hf, hl, -, hs⟩ := loadRoute_eq_some hav t0 arr s0 hload
  have hr : s0.rawRoute = precompute hav (points t0 arr) := by rw [hs]
  rw [← hr] at hf hl
  have hle := nonDecreasing_first_le_last s0.rawRoute first last hmono hf hl
  have hsim : s0.simTime = first.time := by rw [hs]
  have hm : s0.speedMultiplier = 1 := by rw [hs]
  have hlf : s0.lastFrameTs = none := by rw [hs]
  obtain ⟨s, hrun, hrs, h1, h2⟩ := run_clamped s0.rawRoute first last hf hl hle evs s0 rfl
    (by rw [hsim]) (by rw [hsim]; exact hle) (by rw [hm]; norm_num) hspeed
    (fun l h => by rw [hlf] at h; cases h) hframes
  exact ⟨s, first, last, hrun, hrs, by rw [hrs]; exact hf, by rw [hrs]; exact hl, h1, h2⟩

/-- The invariant of C1 on the two-point route ending at 500, after the events
speed 2, play, two frames 1000 ms apart, and restart. -/
theorem clamping_invariant_witness :
    ∃ s first last,
      run demoState [.speed 2, .toggle, .frame 100, .frame 1100, .restart, .frame 1200]
        = some s ∧ s.rawRoute = demoState.rawRoute ∧
      s.rawRoute[0]? = some first ∧ s.rawRoute[s.rawRoute.length - 1]? = some last ∧
      first.time ≤ s.simTime ∧ s.simTime ≤ last.time :=
  clamping_invariant demoHav 0 demoArr demoState
    [.speed 2, .toggle, .frame 100, .frame 1100, .restart, .frame 1200]
    (by decide!) (by simp [NonDecreasing, demoState])
    (by intro m hm; simp at hm; rw [hm]; norm_num)
    (by simp [frameTimes]; norm_num)

/-- C2. End-of-route clamp and auto-stop: in a playing state, a frame whose real
delta is `dt` returns; if `simTime + dt * speedMultiplier` reaches `last.time`
then afterwards `simTime = last.time` and `isPlaying = false`, otherwise
`simTime` has advanced by `dt * speedMultiplier` and `isPlaying` is still true. -/
theorem animate_clamps_at_end (s : State) (ts dt : ℚ) (last : Waypoint)
    (hlast : s.rawRoute[s.rawRoute.length - 1]? = some last)
    (hplay : s.isPlaying = true) (hdt : frameDelta s.lastFrameTs ts = dt) :
    ∃ s1, animate s ts = some s1 ∧
      (last.time ≤ s.simTime + dt * s.speedMultiplier →
        s1.simTime = last.time ∧ s1.isPlaying = false) ∧
      (s.simTime + dt * s.speedMultiplier < last.time →
        s1.simTime = s.simTime + dt * s.speedMultiplier ∧ s1.isPlaying = true) := by
  subst hdt
  obtain ⟨s1, ha, -, -, -, hge, hlt⟩ := animate_playing s ts last hlast hplay
  exact ⟨s1, ha, hge, hlt⟩

/-- Scenario C: `speedMultiplier = 2`, `dt = 1000`, `simTime = 0`, route ending at
500: the frame leaves `simTime = 500` and `isPlaying = false`. -/
theorem animate_clamps_at_end_witness :
    frameDelta scenarioC.lastFrameTs 1100 = 1000 ∧
    ∃ s1, animate scenarioC 1100 = some s1 ∧ s1.simTime = 500 ∧ s1.isPlaying = false := by
  obtain ⟨s1, ha, hge, -⟩ := animate_clamps_at_end scenarioC 1100 1000 ⟨0, 1, 500, none, none⟩
    (by decide!) (by decide!) (by decide!)
  exact ⟨by decide!, s1, ha, hge (by decide!)⟩

/-! ## The precomputation loop -/

theorem precompute_cons (hav : LatLng → LatLng → ℚ) (b : Waypoint) (rest : List Waypoint) :
    ∃ b1 rest1, precompute hav (b :: rest) = b1 :: rest1 ∧ b1.time = b.time ∧
      b1.lat = b.lat ∧ b1.lng = b.lng ∧ rest1.length = rest.length := by
  induction rest generalizing b with
  | nil => exact ⟨b, [], rfl, rfl, rfl, rfl, rfl⟩
  | cons c rest2 ih =>
    obtain ⟨c1, rest3, h, -, -, -, hlen⟩ := ih c
    refine ⟨{ b with distToNext := some (hav ⟨b.lat, b.lng⟩ ⟨c.lat, c.lng⟩),
                     durToNext := some (c.time - b.time) },
      precompute hav (c :: rest2), by rw [precompute], rfl, rfl, rfl, ?_⟩
    rw [h]
    simp [hlen]

theorem precompute_length (hav : LatLng → LatLng → ℚ) (pts : List Waypoint) :
    (precompute hav pts).length = pts.length := by
  cases pts with
  | nil => rfl
  | cons b rest =>
    obtain ⟨b1, rest1, h, -, -, -, hlen⟩ := precompute_cons hav b rest
    rw [h]
    simp [hlen]

theorem precompute_getElem? (hav : LatLng → LatLng → ℚ) (pts : List Waypoint) (k : Nat)
    (p : Waypoint) (h : pts[k]? = some p) :
    ∃ w, (precompute hav pts)[k]? = some w ∧ w.time = p.time ∧ w.lat = p.lat ∧
      w.lng = p.lng := by
  induction pts generalizing k with
  | nil => simp at h
  | cons a tl ih =>
    cases tl with
    | nil =>
      exact ⟨p, by simpa [precompute] using h, rfl, rfl, rfl⟩
    | cons b rest =>
      rw [precompute]
      cases k with
      | zero =>
        simp only [List.getElem?_cons_zero, Option.some.injEq] at h
        subst h
        refine ⟨_, List.getElem?_cons_zero, ?_, ?_, ?_⟩ <;> rfl
      | succ k =>
        rw [List.getElem?_cons_succ] at h
        obtain ⟨w, hw, h1⟩ := ih k h
        exact ⟨w, by rw [List.getElem?_cons_succ]; exact hw, h1⟩

theorem precompute_fields (hav : LatLng → LatLng → ℚ) (pts : List Waypoint) (k : Nat)
    (p0 p1 : Waypoint) (h0 : (precompute hav pts)[k]? = some p0)
    (h1 : (precompute hav pts)[k + 1]? = some p1) :
    p0.distToNext = some (hav ⟨p0.lat, p0.lng⟩ ⟨p1.lat, p1.lng⟩) ∧
      p0.durToNext = some (p1.time - p0.time) := by
  induction pts generalizing k with
  | nil => simp [precompute] at h0
  | cons a tl ih =>
    cases tl with
    | nil => simp [precompute] at h1
    | cons b rest =>
      rw [precompute] at h0 h1
      obtain ⟨b1, rest1, hb, hbt, hblat, hblng, -⟩ := precompute_cons hav b rest
      cases k with
      | zero =>
        rw [hb] at h1
        simp only [List.getElem?_cons_zero, Option.some.injEq, zero_add,
          List.getElem?_cons_succ] at h0 h1
        subst h0; subst h1
        simp [hbt, hblat, hblng]
      | succ k =>
        rw [List.getElem?_cons_succ] at h0 h1
        exact ih k h0 h1

theorem precompute_precomputed (hav : LatLng → LatLng → ℚ) (pts : List Waypoint) :
    Precomputed (precompute hav pts) := by
  induction pts with
  | nil => simp [precompute, Precomputed]
  | cons a tl ih =>
    cases tl with
    | nil => simp [precompute, Precomputed]
    | cons b rest =>
      obtain ⟨b1, rest1, hb, hbt, -⟩ := precompute_cons hav b rest
      rw [precompute, hb]
      rw [hb] at ih
      exact ⟨by simp [hbt], ⟨_, rfl⟩, ih⟩

theorem nonDecreasing_cons (a : Waypoint) (r : List Waypoint) (h : NonDecreasing (a :: r)) :
    (∀ b, b ∈ r → a.time ≤ b.time) ∧ NonDecreasing r := by
  unfold NonDecreasing at h ⊢
  rw [List.map_cons, List.pairwise_cons] at h
  refine ⟨fun b hb => h.1 _ (List.mem_map_of_mem _ hb), h.2⟩

theorem nonDecreasing_getElem? (r : List Waypoint) (h : NonDecreasing r) (i j : Nat)
    (a b : Waypoint) (hij : i ≤ j) (ha : r[i]? = some a) (hb : r[j]? = some b) :
    a.time ≤ b.time := by
  induction r generalizing i j with
  | nil => simp at ha
  | cons c r ih =>
    obtain ⟨hc, hr⟩ := nonDecreasing_cons c r h
    cases i with
    | zero =>
      simp only [List.getElem?_cons_zero, Option.some.injEq] at ha
      subst ha
      cases j with
      | zero =>
        simp only [List.getElem?_cons_zero, Option.some.injEq] at hb
        subst hb; exact le_refl _
      | succ j =>
        rw [List.getElem?_cons_succ] at hb
        exact hc b (List.getElem?_mem hb)
    | succ i =>
      cases j with
      | zero => omega
      | succ j =>
        rw [List.getElem?_cons_succ] at ha hb
        exact ih hr i j (by omega) ha hb

/-- A route of at least two waypoints has a segment containing every time between
its first and its last timestamp. -/
theorem findSegFrom_exists (t : ℚ) (tl : List Waypoint) :
    ∀ (a : Waypoint) (k : Nat), tl ≠ [] → a.time ≤ t →
      (∀ last, (a :: tl).getLast? = some last → t ≤ last.time) →
      ∃ i, findSegFrom t (a :: tl) k = some i := by
  induction tl with
  | nil => intro a k h; exact absurd rfl h
  | cons b rest ih =>
    intro a k _ ha hlast
    unfold findSegFrom
    by_cases h : a.time ≤ t ∧ t ≤ b.time
    · exact ⟨k, by rw [if_pos h]⟩
    · rw [if_neg h]
      have hb : b.time < t := by
        by_contra hcon
        exact h ⟨ha, not_lt.1 hcon⟩
      have hrest : rest ≠ [] := by
        intro hr
        subst hr
        have := hlast b (by simp)
        linarith
      exact ih b (k + 1) hrest hb.le (fun last hl => hlast last (by
        rw [List.getLast?_cons_cons]; exact hl))

theorem findSegment_exists (r : List Waypoint) (t : ℚ) (first last : Waypoint)
    (hlen : 2 ≤ r.length) (hf : r[0]? = some first) (hl : r[r.length - 1]? = some last)
    (h1 : first.time ≤ t) (h2 : t ≤ last.time) :
    ∃ i, findSegment r t = some i := by
  cases r with
  | nil => simp at hf
  | cons a tl =>
    simp only [List.getElem?_cons_zero, Option.some.injEq] at hf
    subst hf
    have htl : tl ≠ [] := by
      intro h; subst h; simp at hlen
    refine findSegFrom_exists t tl a 0 htl h1 (fun l hl2 => ?_)
    rw [List.getLast?_eq_getElem?, hl] at hl2
    cases hl2
    exact h2

/-! ## Claims about the sampler at the final instant -/

theorem jsSpeed_some (d dur : ℚ) :
    jsMul (jsDiv (some d) (jsMax (some 1) (jsDiv (some dur) (some 1000)))) (some 3.6)
      = some (d / max 1 (dur / 1000) * 3.6) := by
  have h1 : (1000 : ℚ) ≠ 0 := by norm_num
  have h2 : max (1 : ℚ) (dur / 1000) ≠ 0 := by
    have : (1 : ℚ) ≤ max 1 (dur / 1000) := le_max_left _ _
    intro h
    rw [h] at this
    norm_num at this
  simp only [jsDiv, jsMax, jsMul, h1, h2, if_false]

/-- C3, counterexample. On the route `(0,0)@0`, `(0,1)@10000` (every segment
111195 m long) the speed reported at `t = last.time = 10000` is 40030.2 km/h, not 0. -/
theorem speed_at_last_time_counterexample :
    loadRoute demoHav 0 scenarioArr = some scenarioState ∧
    NonDecreasing scenarioState.rawRoute ∧
    scenarioState.rawRoute[scenarioState.rawRoute.length - 1]? = some scenarioLast ∧
    (updateUIForTime scenarioState.rawRoute scenarioLast.time).map
        (fun ui => ui.instSpeedKmh) = some (some 40030.2) ∧
    (updateUIForTime scenarioState.rawRoute scenarioLast.time).map
        (fun ui => ui.instSpeedKmh) ≠ some (some 0) := by
  refine ⟨by decide!, ?_, by decide!, by decide!, by decide!⟩
  simp [NonDecreasing, scenarioState]

/-- C3, amended. For a route loaded by `loadRoute` with non-decreasing timestamps,
`updateUIForTime` at `t = last.time` reports speed 0 when the route has one
waypoint; when it has at least two, it reports the speed of the first segment
containing `last.time` (a segment that ends at `last.time`):
`distToNext / max(1, durToNext / 1000) * 3.6`. -/
theorem speed_at_last_time (hav : LatLng → LatLng → ℚ) (t0 : ℚ) (arr : List RawPoint)
    (s : State) (last : Waypoint)
    (hload : loadRoute hav t0 arr = some s)
    (hmono : NonDecreasing s.rawRoute)
    (hl : s.rawRoute[s.rawRoute.length - 1]? = some last) :
    ∃ ui, updateUIForTime s.rawRoute last.time = some ui ∧
      (s.rawRoute.length = 1 → ui.instSpeedKmh = some 0) ∧
      (2 ≤ s.rawRoute.length → ∃ i p0 p1, FirstSegment s.rawRoute last.time i ∧
        s.rawRoute[i]? = some p0 ∧ s.rawRoute[i + 1]? = some p1 ∧
        p1.time = last.time ∧
        ui.instSpeedKmh =
          some (hav ⟨p0.lat, p0.lng⟩ ⟨p1.lat, p1.lng⟩ /
            max 1 ((p1.time - p0.time) / 1000) * 3.6)) := by
  obtain ⟨first, last2, ui0, hf, -, -, hs⟩ := loadRoute_eq_some hav t0 arr s hload
  have hr : s.rawRoute = precompute hav (points t0 arr) := by rw [hs]
  rw [← hr] at hf
  cases hseg : findSegment s.rawRoute last.time with
  | none =>
    refine ⟨_, updateUIForTime_noseg s.rawRoute last.time first last hf hl hseg,
      fun _ => rfl, fun hlen => ?_⟩
    obtain ⟨i, hi⟩ := findSegment_exists s.rawRoute last.time first last hlen hf hl
      (nonDecreasing_first_le_last s.rawRoute first last hmono hf hl) (le_refl _)
    rw [hseg] at hi
    cases hi
  | some i =>
    have hfirst := (findSegment_some_iff _ _ _).1 hseg
    obtain ⟨p0, p1, h0, h1, hle0, hle1⟩ := hfirst.1
    have hlt : i + 1 < s.rawRoute.length := (List.getElem?_eq_some.1 h1).1
    have hp1 : p1.time = last.time :=
      le_antisymm
        (nonDecreasing_getElem? s.rawRoute hmono (i + 1) (s.rawRoute.length - 1) p1 last
          (by omega) h1 hl)
        hle1
    obtain ⟨hd, hdur⟩ := precompute_fields hav (points t0 arr) i p0 p1
      (by rw [← hr]; exact h0) (by rw [← hr]; exact h1)
    refine ⟨_, updateUIForTime_seg s.rawRoute last.time i first p0 p1 hf hseg h0 h1,
      fun hlen => by omega, fun _ => ⟨i, p0, p1, hfirst, h0, h1, hp1, ?_⟩⟩
    simp only [hd, hdur]
    exact jsSpeed_some _ _

/-- The amended C3 on the route `(0,0)@0`, `(0,1)@10000`. -/
theorem speed_at_last_time_witness :
    ∃ ui, updateUIForTime scenarioState.rawRoute scenarioLast.time = some ui ∧
      (scenarioState.rawRoute.length = 1 → ui.instSpeedKmh = some 0) ∧
      (2 ≤ scenarioState.rawRoute.length → ∃ i p0 p1,
        FirstSegment scenarioState.rawRoute scenarioLast.time i ∧
        scenarioState.rawRoute[i]? = some p0 ∧ scenarioState.rawRoute[i + 1]? = some p1 ∧
        p1.time = scenarioLast.time ∧
        ui.instSpeedKmh =
          some (demoHav ⟨p0.lat, p0.lng⟩ ⟨p1.lat, p1.lng⟩ /
            max 1 ((p1.time - p0.time) / 1000) * 3.6)) :=
  speed_at_last_time demoHav 0 scenarioArr scenarioState scenarioLast (by decide!)
    (by simp [NonDecreasing, scenarioState]) (by decide!)

/-- C4, counterexample. On the route `(0,0)@0`, `(1,1)@10`, `(2,2)@10` the marker
and the displayed coordinate at `t = last.time = 10` are `(1,1)`, while the last
waypoint is `(2,2)`.  On the route `(0.3,0)@0`, `(0.9,0)@10`, without a tie, the
sampler at `t = 10` takes segment 0 with fraction 1, and lines 156-157 in double
arithmetic give the latitude `0.9 + 2⁻⁵³` (0.9000000000000001), not that of the
last waypoint. -/
theorem coordinate_at_last_time_counterexample :
    loadRoute demoHav 0 tiedArr = some tiedState ∧
    NonDecreasing tiedState.rawRoute ∧
    tiedState.rawRoute[tiedState.rawRoute.length - 1]? = some ⟨2, 2, 10, none, none⟩ ∧
    (updateMarkerForSimTime tiedState 10).map
        (fun s => (s.marker, s.ui.currentLat, s.ui.currentLng))
      = some (⟨1, 1⟩, some 1, some 1) ∧
    (updateUIForTime tiedState.rawRoute 10).map (fun ui => (ui.currentLat, ui.currentLng))
      = some (some 1, some 1) ∧
    (loadRoute demoHav 0 inexactArr).bind (fun s => findSegment s.rawRoute 10) = some 0 ∧
    jsDiv (some (10 - 0)) (some (10 - 0)) = some 1 ∧
    lerpDouble (roundDouble 0.3) (roundDouble 0.9) 1 = roundDouble 0.9 + 1 / 2 ^ 53 ∧
    lerpDouble (roundDouble 0.3) (roundDouble 0.9) 1 ≠ roundDouble 0.9 := by
  refine ⟨by decide!, ?_, by decide!, by decide!, by decide!, by decide!, by decide!,
    by decide!, by decide!⟩
  simp [NonDecreasing, tiedState]

/-- C4, amended. For a route with non-decreasing timestamps, sampling at
`t = last.time` returns.  With a single waypoint the marker and the displayed
coordinate are that waypoint's, copied.  With at least two waypoints, the last
strictly later than the one before it, the sampler selects the final segment
with fraction exactly 1, and the marker and the displayed coordinate are the
interpolation formula of the last two waypoints at fraction 1,
`lat_{n-2} + (lat_{n-1} − lat_{n-2}) × 1` and likewise for the longitude. -/
theorem coordinate_at_last_time (s : State) (last : Waypoint)
    (hmono : NonDecreasing s.rawRoute)
    (hl : s.rawRoute[s.rawRoute.length - 1]? = some last)
    (hstrict : ∀ prev, 2 ≤ s.rawRoute.length →
      s.rawRoute[s.rawRoute.length - 2]? = some prev → prev.time < last.time) :
    ∃ s1, updateMarkerForSimTime s last.time = some s1 ∧
      updateUIForTime s.rawRoute last.time = some s1.ui ∧
      (s.rawRoute.length = 1 →
        findSegment s.rawRoute last.time = none ∧
        s1.marker = ⟨last.lat, last.lng⟩ ∧
        s1.ui.currentLat = some last.lat ∧ s1.ui.currentLng = some last.lng) ∧
      (2 ≤ s.rawRoute.length → ∃ prev,
        s.rawRoute[s.rawRoute.length - 2]? = some prev ∧
        findSegment s.rawRoute last.time = some (s.rawRoute.length - 2) ∧
        (if last.time - prev.time = 0 then 1
          else (last.time - prev.time) / (last.time - prev.time)) = (1 : ℚ) ∧
        jsDiv (some (last.time - prev.time)) (some (last.time - prev.time)) = some 1 ∧
        s1.marker = ⟨lerp prev.lat last.lat 1, lerp prev.lng last.lng 1⟩ ∧
        s1.ui.currentLat = some (lerp prev.lat last.lat 1) ∧
        s1.ui.currentLng = some (lerp prev.lng last.lng 1)) := by
  obtain ⟨first, hf⟩ : ∃ first, s.rawRoute[0]? = some first := by
    cases hr : s.rawRoute with
    | nil => rw [hr] at hl; simp at hl
    | cons a tl => exact ⟨a, by simp⟩
  by_cases hlen : 2 ≤ s.rawRoute.length
  · obtain ⟨prev, hprev⟩ : ∃ prev, s.rawRoute[s.rawRoute.length - 2]? = some prev :=
      ⟨_, List.getElem?_eq_getElem (by omega)⟩
    have hlt := hstrict prev hlen hprev
    have hl2 : s.rawRoute[s.rawRoute.length - 2 + 1]? = some last := by
      have : s.rawRoute.length - 2 + 1 = s.rawRoute.length - 1 := by omega
      rw [this]; exact hl
    have hfirst : FirstSegment s.rawRoute last.time (s.rawRoute.length - 2) := by
      refine ⟨⟨prev, last, hprev, hl2, hlt.le, le_refl _⟩, ?_⟩
      rintro j hj ⟨a, b, -, hb, -, hle⟩
      have := nonDecreasing_getElem? s.rawRoute hmono (j + 1) (s.rawRoute.length - 2)
        b prev (by omega) hb hprev
      linarith
    have hseg := (findSegment_some_iff _ _ _).2 hfirst
    have hne : last.time - prev.time ≠ 0 := by
      intro h; linarith
    have hfrac : (if last.time - prev.time = 0 then 1
        else (last.time - prev.time) / (last.time - prev.time)) = (1 : ℚ) := by
      rw [if_neg hne, div_self hne]
    have hdiv : jsDiv (some (last.time - prev.time)) (some (last.time - prev.time))
        = some 1 := by
      simp only [jsDiv, hne, if_false, div_self hne]
    obtain ⟨ui, hui, hm⟩ := updateMarker_seg s last.time _ first prev last hf hseg hprev hl2
    have hui2 := updateUIForTime_seg s.rawRoute last.time _ first prev last hf hseg hprev hl2
    rw [hui2] at hui
    rw [hfrac] at hm
    rw [hdiv] at hui2 hui
    refine ⟨_, hm, hui.symm ▸ hui2, fun h1 => by omega, fun _ => ⟨prev, hprev, hseg, hfrac,
      hdiv, rfl, ?_, ?_⟩⟩
    · rw [← Option.some.inj hui]; rfl
    · rw [← Option.some.inj hui]; rfl
  · have hseg : findSegment s.rawRoute last.time = none := by
      rw [findSegment_none_iff]
      rintro j ⟨a, b, -, hb, -⟩
      have := (List.getElem?_eq_some.1 hb).1
      omega
    obtain ⟨ui, hui, hm⟩ := updateMarker_noseg s last.time first last hf hl hseg
    have hui2 := updateUIForTime_noseg s.rawRoute last.time first last hf hl hseg
    rw [hui2] at hui
    refine ⟨_, hm, hui.symm ▸ hui2, fun _ => ⟨hseg, rfl, ?_, ?_⟩, fun h2 => absurd h2 hlen⟩
    · rw [← Option.some.inj hui]
    · rw [← Option.some.inj hui]

/-- The amended C4 on the route `(0,0)@0`, `(0,1)@10000`. -/
theorem coordinate_at_last_time_witness :
    ∃ s1, updateMarkerForSimTime scenarioState scenarioLast.time = some s1 ∧
      updateUIForTime scenarioState.rawRoute scenarioLast.time = some s1.ui ∧
      (scenarioState.rawRoute.length = 1 →
        findSegment scenarioState.rawRoute scenarioLast.time = none ∧
        s1.marker = ⟨scenarioLast.lat, scenarioLast.lng⟩ ∧
        s1.ui.currentLat = some scenarioLast.lat ∧
        s1.ui.currentLng = some scenarioLast.lng) ∧
      (2 ≤ scenarioState.rawRoute.length → ∃ prev,
        scenarioState.rawRoute[scenarioState.rawRoute.length - 2]? = some prev ∧
        findSegment scenarioState.rawRoute scenarioLast.time
          = some (scenarioState.rawRoute.length - 2) ∧
        (if scenarioLast.time - prev.time = 0 then 1
          else (scenarioLast.time - prev.time) / (scenarioLast.time - prev.time))
          = (1 : ℚ) ∧
        jsDiv (some (scenarioLast.time - prev.time)) (some (scenarioLast.time - prev.time))
          = some 1 ∧
        s1.marker = ⟨lerp prev.lat scenarioLast.lat 1, lerp prev.lng scenarioLast.lng 1⟩ ∧
        s1.ui.currentLat = some (lerp prev.lat scenarioLast.lat 1) ∧
        s1.ui.currentLng = some (lerp prev.lng scenarioLast.lng 1)) :=
  coordinate_at_last_time scenarioState scenarioLast
    (by simp [NonDecreasing, scenarioState]) (by decide!)
    (by
      intro prev _ h
      have hp : prev = ⟨0, 0, 0, some 111195, some 10000⟩ := by
        simpa [scenarioState] using h.symm
      rw [hp]
      simp [scenarioLast])

/-! ## Claims about the distance traveled -/

theorem updateUIForTime_fields (r : List Waypoint) (t : ℚ) (first : Waypoint) (ui : UI)
    (hf : r[0]? = some first) (h : updateUIForTime r t = some ui) :
    ui.elapsedMs = t - first.time ∧ ui.dist = distLoop t r (some 0) := by
  cases r with
  | nil => simp at hf
  | cons a tl =>
    simp only [List.getElem?_cons_zero, Option.some.injEq] at hf
    subst hf
    obtain ⟨ui2, h2, he, hd⟩ := updateUIForTime_cons a tl t
    rw [h2] at h
    cases h
    exact ⟨he, hd⟩

theorem distLoop_step (t acc dur d : ℚ) (a b : Waypoint) (rest : List Waypoint)
    (hdur : a.durToNext = some dur) (hd : a.distToNext = some d) :
    distLoop t (a :: b :: rest) (some acc) =
      if a.time + dur ≤ t then distLoop t (b :: rest) (some (acc + d))
      else if a.time ≤ t then
        (if dur = 0 then none else some (acc + d * max 0 ((t - a.time) / dur)))
      else some acc := by
  rw [distLoop, hdur, hd]
  simp only [jsAdd, jsLe, decide_eq_true_eq]
  by_cases h1 : a.time + dur ≤ t
  · simp only [h1, if_true]
  · simp only [h1, if_false]
    by_cases h2 : a.time ≤ t
    · simp only [h2, if_true]
      by_cases h3 : dur = 0
      · simp only [h3, jsDiv, if_true, jsMax, jsMul]
      · simp only [h3, jsDiv, if_false, jsMax, jsMul]
    · simp only [h2, if_false]

theorem distLoop_all_completed (hav : LatLng → LatLng → ℚ) (t : ℚ) (pts : List Waypoint) :
    ∀ acc : ℚ, (∀ p, p ∈ pts → p.time ≤ t) →
      distLoop t (precompute hav pts) (some acc) = some (sumDistances hav pts acc) := by
  induction pts with
  | nil => intro acc _; rfl
  | cons a tl ih =>
    cases tl with
    | nil => intro acc _; rfl
    | cons b rest =>
      intro acc hall
      obtain ⟨b1, rest1, hb, -⟩ := precompute_cons hav b rest
      have hbt : b.time ≤ t := hall b (by simp)
      have ih2 := ih (acc + hav ⟨a.lat, a.lng⟩ ⟨b.lat, b.lng⟩)
        (fun p hp => hall p (List.mem_cons_of_mem _ hp))
      rw [hb] at ih2
      have hc : a.time + (b.time - a.time) ≤ t := by linarith
      rw [precompute, hb, distLoop_step t acc (b.time - a.time)
        (hav ⟨a.lat, a.lng⟩ ⟨b.lat, b.lng⟩) _ b1 rest1 rfl rfl]
      simp only [hc, if_true]
      rw [ih2, sumDistances]

/-- C5. Distance at the final instant equals the route total: for a route loaded
by `loadRoute` with non-decreasing timestamps, `updateUIForTime` at
`t = last.time` returns, and the distance it computes is `totalDistance`. -/
theorem distance_at_last_time (hav : LatLng → LatLng → ℚ) (t0 : ℚ) (arr : List RawPoint)
    (s : State) (last : Waypoint)
    (hload : loadRoute hav t0 arr = some s)
    (hmono : NonDecreasing s.rawRoute)
    (hl : s.rawRoute[s.rawRoute.length - 1]? = some last) :
    ∃ ui, updateUIForTime s.rawRoute last.time = some ui ∧
      ui.dist = some s.totalDistance := by
  obtain ⟨first, last2, ui0, hf, -, -, hs⟩ := loadRoute_eq_some hav t0 arr s hload
  have hr : s.rawRoute = precompute hav (points t0 arr) := by rw [hs]
  have htot : s.totalDistance = sumDistances hav (points t0 arr) 0 := by rw [hs]
  rw [← hr] at hf
  obtain ⟨a, tl, hcons⟩ : ∃ a tl, s.rawRoute = a :: tl := by
    cases h : s.rawRoute with
    | nil => rw [h] at hf; simp at hf
    | cons a tl => exact ⟨a, tl, rfl⟩
  obtain ⟨ui, hui, -, hd⟩ := updateUIForTime_cons a tl last.time
  rw [← hcons] at hui hd
  refine ⟨ui, hui, ?_⟩
  rw [hd, hr, htot]
  apply distLoop_all_completed
  intro p hp
  obtain ⟨k, hk⟩ := List.mem_iff_getElem?.1 hp
  obtain ⟨w, hw, hwt, -⟩ := precompute_getElem? hav (points t0 arr) k p hk
  rw [← hr] at hw
  have hklt : k < s.rawRoute.length := (List.getElem?_eq_some.1 hw).1
  rw [← hwt]
  exact nonDecreasing_getElem? s.rawRoute hmono k (s.rawRoute.length - 1) w last
    (by omega) hw hl

/-- Scenario B: on the route `(0,0)@0`, `(0,1)@10000` the distance at
`t = 10000` is the total distance. -/
theorem distance_at_last_time_witness :
    ∃ ui, updateUIForTime scenarioState.rawRoute scenarioLast.time = some ui ∧
      ui.dist = some scenarioState.totalDistance :=
  distance_at_last_time demoHav 0 scenarioArr scenarioState scenarioLast (by decide!)
    (by simp [NonDecreasing, scenarioState]) (by decide!)

theorem distLoop_stop (t x : ℚ) (b : Waypoint) (rest : List Waypoint)
    (hpre : Precomputed (b :: rest)) (hb : b.time = t)
    (hnext : ∀ q, rest[0]? = some q → t < q.time) :
    distLoop t (b :: rest) (some x) = some x := by
  cases rest with
  | nil => rfl
  | cons c rest2 =>
    obtain ⟨hdur, ⟨d, hd⟩, -⟩ := hpre
    have hc := hnext c (by simp)
    have hne : c.time - b.time ≠ 0 := by
      intro h; linarith
    have h1 : ¬ (b.time + (c.time - b.time) ≤ t) := by
      intro h; linarith
    have h2 : t - b.time = 0 := by linarith
    rw [distLoop_step t x (c.time - b.time) d b c rest2 hdur hd]
    simp only [h1, if_false, hb.le, if_true, hne, h2, zero_div, max_self, mul_zero,
      add_zero]

theorem distLoop_first_segment (t : ℚ) (i : Nat) :
    ∀ (r : List Waypoint) (acc : ℚ), Precomputed r →
      (∀ a, r[0]? = some a → a.time ≤ t) → FirstSegment r t i →
      (∀ q, r[i + 2]? = some q → t < q.time) →
      ∃ p dur d pre, r[i]? = some p ∧ p.durToNext = some dur ∧ p.distToNext = some d ∧
        (r.take i).foldl (fun acc q => jsAdd acc q.distToNext) (some acc) = some pre ∧
        distLoop t r (some acc)
          = some (pre + (if dur = 0 then 1 else (t - p.time) / dur) * d) := by
  induction i with
  | zero =>
    intro r acc hpre hhead hfirst hnext
    obtain ⟨a, b, ha, hb, hle0, hle1⟩ := hfirst.1
    cases r with
    | nil => simp at ha
    | cons a1 tl =>
      cases tl with
      | nil => simp at hb
      | cons b1 rest =>
        simp only [List.getElem?_cons_zero, Option.some.injEq, zero_add,
          List.getElem?_cons_succ] at ha hb
        subst ha; subst hb
        obtain ⟨hdur, ⟨d, hd⟩, hpre2⟩ := hpre
        refine ⟨a1, b1.time - a1.time, d, acc, by simp, hdur, hd, by simp, ?_⟩
        rw [distLoop_step t acc (b1.time - a1.time) d a1 b1 rest hdur hd]
        by_cases hbt : b1.time ≤ t
        · have heq : b1.time = t := le_antisymm hbt hle1
          have h1 : a1.time + (b1.time - a1.time) ≤ t := by linarith
          rw [if_pos h1, distLoop_stop t (acc + d) b1 rest hpre2 heq
            (fun q hq => hnext q (by simpa using hq))]
          congr 1
          by_cases hz : b1.time - a1.time = 0
          · rw [if_pos hz]; ring
          · rw [if_neg hz, ← heq, div_self hz]
            ring
        · have hlt : t < b1.time := not_le.1 hbt
          have hne : b1.time - a1.time ≠ 0 := by
            intro h; linarith
          have hpos : 0 < b1.time - a1.time := by linarith
          have h1 : ¬ (a1.time + (b1.time - a1.time) ≤ t) := by
            intro h; linarith
          have hfrac : 0 ≤ (t - a1.time) / (b1.time - a1.time) :=
            div_nonneg (by linarith) hpos.le
          rw [if_neg h1, if_pos hle0, if_neg hne, if_neg hne, max_eq_right hfrac]
          congr 1
          ring
  | succ i ih =>
    intro r acc hpre hhead hfirst hnext
    obtain ⟨a, b, ha, hb, -, -⟩ := hfirst.1
    cases r with
    | nil => simp at ha
    | cons a1 tl =>
      cases tl with
      | nil => simp at hb
      | cons b1 rest =>
        obtain ⟨hdur, ⟨d, hd⟩, hpre2⟩ := hpre
        have ha1 : a1.time ≤ t := hhead a1 (by simp)
        have hn0 : ¬ (a1.time ≤ t ∧ t ≤ b1.time) := by
          rw [← contains_zero a1 b1 rest t]
          exact hfirst.2 0 (by omega)
        have hb1 : b1.time < t := by
          by_contra hcon
          exact hn0 ⟨ha1, not_lt.1 hcon⟩
        have hfirst2 : FirstSegment (b1 :: rest) t i := by
          refine ⟨(contains_succ a1 _ t i).1 hfirst.1, fun j hj hc => ?_⟩
          exact hfirst.2 (j + 1) (by omega) ((contains_succ a1 _ t j).2 hc)
        obtain ⟨p, dur, d2, pre, hp, hpdur, hpd, hfold, hloop⟩ :=
          ih (b1 :: rest) (acc + d) hpre2
            (fun x hx => by
              simp only [List.getElem?_cons_zero, Option.some.injEq] at hx
              subst hx; exact hb1.le)
            hfirst2
            (fun q hq => hnext q (by simpa using hq))
        refine ⟨p, dur, d2, pre, by simpa using hp, hpdur, hpd, ?_, ?_⟩
        · rw [List.take_succ_cons, List.foldl_cons, hd]
          exact hfold
        · have h1 : a1.time + (b1.time - a1.time) ≤ t := by linarith
          rw [distLoop_step t acc (b1.time - a1.time) d a1 b1 rest hdur hd, if_pos h1]
          exact hloop

/-- C6, counterexample. On the route `(0,0)@0`, `(1,1)@10`, `(2,2)@10` (every
segment 111195 m long) and `t = 10`, the first segment containing `t` is segment
0 and the specified formula gives 111195, while the loop of `updateUIForTime`
computes 222390: it also counts the zero-duration segment that follows. -/
theorem distance_matches_spec_counterexample :
    loadRoute demoHav 0 tiedArr = some tiedState ∧
    NonDecreasing tiedState.rawRoute ∧
    FirstSegment tiedState.rawRoute 10 0 ∧
    specDistance tiedState.rawRoute 10 0 = some 111195 ∧
    (updateUIForTime tiedState.rawRoute 10).map (fun ui => ui.dist)
      = some (some 222390) := by
  refine ⟨by decide!, ?_, (findSegment_some_iff _ _ _).1 (by decide!), by decide!,
    by decide!⟩
  simp [NonDecreasing, tiedState]

/-- C6, amended. For a route loaded by `loadRoute` and a time `t ≥ first.time`
whose first containing segment is `i`, provided waypoint `i + 2` does not exist
or is strictly later than `t`, the distance computed by the loop of
`updateUIForTime` is the specified one: the sum of `distToNext` of the segments
before `i` plus `fraction × distToNext` of segment `i`. -/
theorem distance_matches_spec (hav : LatLng → LatLng → ℚ) (t0 : ℚ) (arr : List RawPoint)
    (s : State) (first : Waypoint) (t : ℚ) (i : Nat)
    (hload : loadRoute hav t0 arr = some s)
    (hf : s.rawRoute[0]? = some first) (h1 : first.time ≤ t)
    (hseg : FirstSegment s.rawRoute t i)
    (hnext : ∀ q, s.rawRoute[i + 2]? = some q → t < q.time) :
    ∃ ui d, updateUIForTime s.rawRoute t = some ui ∧ ui.dist = some d ∧
      specDistance s.rawRoute t i = some d := by
  obtain ⟨first2, last2, ui0, -, -, -, hs⟩ := loadRoute_eq_some hav t0 arr s hload
  have hr : s.rawRoute = precompute hav (points t0 arr) := by rw [hs]
  have hpre : Precomputed s.rawRoute := by
    rw [hr]; exact precompute_precomputed hav _
  obtain ⟨p, dur, d, pre, hp, hdur, hd, hfold, hloop⟩ :=
    distLoop_first_segment t i s.rawRoute 0 hpre
      (fun a ha => by
        rw [hf] at ha
        cases ha
        exact h1)
      hseg hnext
  obtain ⟨⟨p0, p1, h0, hp1, -, -⟩, -⟩ := hseg
  obtain ⟨ui, hui⟩ : ∃ ui, updateUIForTime s.rawRoute t = some ui := by
    cases hr2 : s.rawRoute with
    | nil => rw [hr2] at hf; simp at hf
    | cons a tl =>
      obtain ⟨ui, hui, -⟩ := updateUIForTime_cons a tl t
      exact ⟨ui, hui⟩
  refine ⟨ui, pre + (if dur = 0 then 1 else (t - p.time) / dur) * d, hui, ?_, ?_⟩
  · rw [(updateUIForTime_fields s.rawRoute t first ui hf hui).2]
    exact hloop
  · unfold specDistance
    simp only [hp, hdur, hd, Option.some_bind, Option.bind_eq_bind]
    rw [hfold]
    rfl

/-- The amended C6 on the route `(0,0)@0`, `(0,1)@10000` at `t = 5000`: half of
the only segment. -/
theorem distance_matches_spec_witness :
    ∃ ui d, updateUIForTime scenarioState.rawRoute 5000 = some ui ∧ ui.dist = some d ∧
      specDistance scenarioState.rawRoute 5000 0 = some d :=
  distance_matches_spec demoHav 0 scenarioArr scenarioState ⟨0, 0, 0, some 111195, some 10000⟩
    5000 0 (by decide!) (by decide!) (by decide!)
    ((findSegment_some_iff _ _ _).1 (by decide!))
    (by intro q hq; simp [scenarioState] at hq)

/-! ## Claims about division, interpolation and the loader -/

/-- C7, failing input. On the route `(0,0)@0`, `(1,1)@0`, whose timestamps are
non-decreasing, `loadRoute` samples at `t = first.time = 0`: the first segment
containing 0 is segment 0, of duration 0, and the fraction of line 184 of
`updateUIForTime` is `0 / 0`, so the displayed coordinate is not a number; the
sibling `updateMarkerForSimTime` guards the same division and yields `(1,1)`. -/
theorem coordinate_fraction_divides_by_zero :
    (loadRoute demoHav 0 coincidentArr).map
        (fun s => (s.rawRoute.map (fun p => p.time), s.simTime, s.ui.currentLat,
          s.ui.currentLng))
      = some ([0, 0], 0, none, none) ∧
    ((loadRoute demoHav 0 coincidentArr).bind
        (fun s => findSegment s.rawRoute 0)) = some 0 ∧
    jsDiv (some (0 - 0)) (some (0 - 0)) = none ∧
    ((loadRoute demoHav 0 coincidentArr).bind (fun s => updateMarkerForSimTime s 0)).map
        (fun s => (s.marker, s.ui.currentLat, s.ui.currentLng))
      = some (⟨1, 1⟩, none, none) := by
  refine ⟨by decide!, by decide!, by decide!, by decide!⟩

/-- C8. Linear interpolation and elapsed time: for a route of at least two
waypoints and a time `t` in `[first.time, last.time]`, `updateMarkerForSimTime`
returns; with `i` the first segment containing `t` and `frac` equal to 1 when
the segment has duration 0 and to `(t − time_i) / segDur` otherwise, the marker
is at `(lat_i + (lat_{i+1} − lat_i) × frac, lng_i + (lng_{i+1} − lng_i) × frac)`
and the elapsed time reported is `t − first.time`. -/
theorem marker_interpolates (s : State) (first last : Waypoint) (t : ℚ)
    (hlen : 2 ≤ s.rawRoute.length)
    (hf : s.rawRoute[0]? = some first)
    (hl : s.rawRoute[s.rawRoute.length - 1]? = some last)
    (h1 : first.time ≤ t) (h2 : t ≤ last.time) :
    ∃ i p0 p1 s1, FirstSegment s.rawRoute t i ∧
      s.rawRoute[i]? = some p0 ∧ s.rawRoute[i + 1]? = some p1 ∧
      updateMarkerForSimTime s t = some s1 ∧
      s1.marker =
        ⟨p0.lat + (p1.lat - p0.lat) *
            (if p1.time - p0.time = 0 then 1 else (t - p0.time) / (p1.time - p0.time)),
         p0.lng + (p1.lng - p0.lng) *
            (if p1.time - p0.time = 0 then 1 else (t - p0.time) / (p1.time - p0.time))⟩ ∧
      s1.ui.elapsedMs = t - first.time := by
  obtain ⟨i, hseg⟩ := findSegment_exists s.rawRoute t first last hlen hf hl h1 h2
  have hfirst := (findSegment_some_iff _ _ _).1 hseg
  obtain ⟨p0, p1, h0, hp1, -, -⟩ := hfirst.1
  obtain ⟨ui, hui, hm⟩ := updateMarker_seg s t i first p0 p1 hf hseg h0 hp1
  exact ⟨i, p0, p1, _, hfirst, h0, hp1, hm, rfl,
    (updateUIForTime_fields s.rawRoute t first ui hf hui).1⟩

/-- Scenario A: the route `(0,0)@0`, `(0,1)@10000` sampled at `t = 5000` gives the
coordinate `(0, 0.5)` and `elapsedMs = 5000`. -/
theorem marker_interpolates_witness :
    (updateMarkerForSimTime scenarioState 5000).map (fun s => (s.marker, s.ui.elapsedMs))
      = some (⟨0, 0.5⟩, 5000) ∧
    ∃ i p0 p1 s1, FirstSegment scenarioState.rawRoute 5000 i ∧
      scenarioState.rawRoute[i]? = some p0 ∧ scenarioState.rawRoute[i + 1]? = some p1 ∧
      updateMarkerForSimTime scenarioState 5000 = some s1 ∧
      s1.marker =
        ⟨p0.lat + (p1.lat - p0.lat) *
            (if p1.time - p0.time = 0 then 1
             else (5000 - p0.time) / (p1.time - p0.time)),
         p0.lng + (p1.lng - p0.lng) *
            (if p1.time - p0.time = 0 then 1
             else (5000 - p0.time) / (p1.time - p0.time))⟩ ∧
      s1.ui.elapsedMs = 5000 - (0 : ℚ) :=
  ⟨by decide!,
   marker_interpolates scenarioState ⟨0, 0, 0, some 111195, some 10000⟩ scenarioLast 5000
    (by decide!) (by decide!) (by decide!) (by decide!) (by decide!)⟩

theorem parsedTimes_length (arr : List RawPoint) :
    ∀ ts, parsedTimes arr = some ts → ts.length = arr.length := by
  induction arr with
  | nil =>
    intro ts h
    simp only [parsedTimes, Option.some.injEq] at h
    subst h; rfl
  | cons p ps ih =>
    intro ts h
    rw [parsedTimes] at h
    cases hp : p.timestamp with
    | none => rw [hp] at h; cases h
    | some x =>
      cases hps : parsedTimes ps with
      | none => rw [hp, hps] at h; cases h
      | some ts2 =>
        rw [hp, hps] at h
        simp only [Option.some.injEq] at h
        subst h
        simp [ih ts2 hps]

theorem parsedTimes_none (arr : List RawPoint)
    (h : ∃ p, p ∈ arr ∧ p.timestamp = none) : parsedTimes arr = none := by
  induction arr with
  | nil =>
    obtain ⟨p, hp, -⟩ := h
    cases hp
  | cons q qs ih =>
    obtain ⟨p, hp, hnone⟩ := h
    rw [parsedTimes]
    rcases List.mem_cons.1 hp with rfl | hmem
    · rw [hnone]
    · rw [ih ⟨p, hmem, hnone⟩]
      cases q.timestamp <;> rfl

theorem timeline_length (t0 : ℚ) (arr : List RawPoint) :
    (timeline t0 arr).length = arr.length := by
  unfold timeline
  cases h : parsedTimes arr with
  | none => simp
  | some ts => exact parsedTimes_length arr ts h

theorem points_length (t0 : ℚ) (arr : List RawPoint) :
    (points t0 arr).length = arr.length := by
  unfold points
  rw [List.length_zipWith, timeline_length, min_self]

theorem points_getElem? (t0 : ℚ) (arr : List RawPoint) (k : Nat) (w : Waypoint)
    (h : (points t0 arr)[k]? = some w) :
    ∃ p t, arr[k]? = some p ∧ (timeline t0 arr)[k]? = some t ∧
      w = { lat := p.latitude, lng := p.longitude, time := t,
            distToNext := none, durToNext := none } := by
  unfold points at h
  rw [List.getElem?_zipWith] at h
  cases ha : arr[k]? with
  | none => rw [ha] at h; simp at h
  | some p =>
    cases ht : (timeline t0 arr)[k]? with
    | none => rw [ha, ht] at h; simp at h
    | some t =>
      rw [ha, ht] at h
      simp only [Option.some.injEq] at h
      exact ⟨p, t, rfl, rfl, h.symm⟩

/-- On a non-empty array `loadRoute` returns. -/
theorem loadRoute_total (hav : LatLng → LatLng → ℚ) (t0 : ℚ) (arr : List RawPoint)
    (hne : arr ≠ []) : ∃ s, loadRoute hav t0 arr = some s := by
  have hlen : 0 < (precompute hav (points t0 arr)).length := by
    rw [precompute_length, points_length]
    exact List.length_pos.2 hne
  obtain ⟨a, tl, hr⟩ : ∃ a tl, precompute hav (points t0 arr) = a :: tl := by
    cases h : precompute hav (points t0 arr) with
    | nil => rw [h] at hlen; simp at hlen
    | cons a tl => exact ⟨a, tl, rfl⟩
  obtain ⟨ui, hui, -⟩ := updateUIForTime_cons a tl a.time
  have hlast : (a :: tl)[(a :: tl).length - 1]? = some ((a :: tl)[(a :: tl).length - 1]) :=
    List.getElem?_eq_getElem (by simp)
  unfold loadRoute
  simp only [hr, hlast, List.getElem?_cons_zero, hui, Option.some_bind, Option.bind_eq_bind,
    Option.pure_def]
  exact ⟨_, rfl⟩

/-- C9. Single-point route: for a route of exactly one waypoint `p`, `loadRoute`
returns with `totalDistance = 0` and `totalDuration = 0`, and for every queried
time the sampler returns, puts the marker at `p` and reports the coordinate of
`p`, speed 0 and distance 0, all of them numbers. -/
theorem single_point_route (hav : LatLng → LatLng → ℚ) (t0 : ℚ) (p : RawPoint) :
    ∃ s w, loadRoute hav t0 [p] = some s ∧ s.rawRoute = [w] ∧
      w.lat = p.latitude ∧ w.lng = p.longitude ∧
      s.totalDistance = 0 ∧ s.totalDuration = 0 ∧
      ∀ t, ∃ s1, updateMarkerForSimTime s t = some s1 ∧
        updateUIForTime s.rawRoute t = some s1.ui ∧
        s1.marker = ⟨p.latitude, p.longitude⟩ ∧
        s1.ui.currentLat = some p.latitude ∧ s1.ui.currentLng = some p.longitude ∧
        s1.ui.instSpeedKmh = some 0 ∧ s1.ui.dist = some 0 := by
  obtain ⟨s, hs⟩ := loadRoute_total hav t0 [p] (by simp)
  obtain ⟨first, last, ui, hf, hl, -, heq⟩ := loadRoute_eq_some hav t0 [p] s hs
  obtain ⟨w, hw⟩ : ∃ w, points t0 [p] = [w] := by
    have := points_length t0 [p]
    cases h : points t0 [p] with
    | nil => rw [h] at this; simp at this
    | cons w tl =>
      rw [h] at this
      cases tl with
      | nil => exact ⟨w, rfl⟩
      | cons _ _ => simp at this
  obtain ⟨q, tq, hq, -, hwq⟩ := points_getElem? t0 [p] 0 w (by rw [hw]; simp)
  simp only [List.getElem?_cons_zero, Option.some.injEq] at hq
  subst hq
  have hpre : precompute hav (points t0 [p]) = [w] := by rw [hw]; rfl
  rw [hpre] at hf hl
  simp only [List.getElem?_cons_zero, Option.some.injEq, List.length_singleton,
    Nat.sub_self] at hf hl
  subst hf; subst hl
  have hr : s.rawRoute = [w] := by rw [heq, hpre]
  refine ⟨s, w, hs, hr, by rw [hwq], by rw [hwq], ?_, ?_, fun t => ?_⟩
  · rw [heq, hw]; rfl
  · rw [heq]; simp
  · have hseg : findSegment s.rawRoute t = none := by rw [hr]; rfl
    obtain ⟨ui2, hui2, hm⟩ := updateMarker_noseg s t w w (by rw [hr]; simp)
      (by rw [hr]; simp) hseg
    have hui3 := updateUIForTime_noseg s.rawRoute t w w (by rw [hr]; simp)
      (by rw [hr]; simp) hseg
    rw [hui3] at hui2
    have hdist : distLoop t s.rawRoute (some 0) = some 0 := by rw [hr]; rfl
    refine ⟨_, hm, hui2.symm ▸ hui3, ?_, ?_, ?_, ?_, ?_⟩
    · simp [hwq]
    · rw [← Option.some.inj hui2]; simp [hwq]
    · rw [← Option.some.inj hui2]; simp [hwq]
    · rw [← Option.some.inj hui2]
    · rw [← Option.some.inj hui2]; exact hdist

theorem synthetic_times (hav : LatLng → LatLng → ℚ) (t0 : ℚ) (arr : List RawPoint)
    (hnone : parsedTimes arr = none) (k : Nat) (w : Waypoint)
    (h : (precompute hav (points t0 arr))[k]? = some w) :
    w.time = t0 + 5000 * (k : ℚ) := by
  have hk : k < (points t0 arr).length := by
    have := (List.getElem?_eq_some.1 h).1
    rwa [precompute_length] at this
  obtain ⟨w2, hw2, ht, -⟩ := precompute_getElem? hav (points t0 arr) k _
    (List.getElem?_eq_getElem hk)
  rw [h] at hw2
  cases hw2
  obtain ⟨p, t, -, htl, hq⟩ := points_getElem? t0 arr k _ (List.getElem?_eq_getElem hk)
  rw [ht, hq]
  unfold timeline at htl
  rw [hnone] at htl
  simp only [List.getElem?_map, Option.map_eq_some'] at htl
  obtain ⟨j, hj, hjt⟩ := htl
  have hjk : j = k := by
    have := List.getElem?_range (m := k) (n := arr.length)
    rw [List.getElem?_eq_some] at hj
    obtain ⟨hlt, hval⟩ := hj
    simpa using hval.symm
  subst hjk
  rw [← hjt]
  ring

/-- C10. Synthetic timeline fallback: when at least one point of the input lacks a
timestamp, `loadRoute` returns a route of the same length in which the point at
index `k` has time `t0 + 5000 × k`, every `durToNext` is 5000 and
`totalDuration = 5000 × (n − 1)`. -/
theorem synthetic_timeline (hav : LatLng → LatLng → ℚ) (t0 : ℚ) (arr : List RawPoint)
    (hmiss : ∃ p, p ∈ arr ∧ p.timestamp = none) :
    ∃ s, loadRoute hav t0 arr = some s ∧ s.rawRoute.length = arr.length ∧
      (∀ (k : Nat) (w : Waypoint), s.rawRoute[k]? = some w → w.time = t0 + 5000 * (k : ℚ)) ∧
      (∀ (k : Nat) (w : Waypoint), s.rawRoute[k]? = some w → k + 1 < arr.length →
        w.durToNext = some 5000) ∧
      s.totalDuration = 5000 * ((arr.length : ℚ) - 1) := by
  have hne : arr ≠ [] := by
    obtain ⟨p, hp, -⟩ := hmiss
    intro h
    rw [h] at hp
    cases hp
  have hnone := parsedTimes_none arr hmiss
  obtain ⟨s, hs⟩ := loadRoute_total hav t0 arr hne
  obtain ⟨first, last, ui, hf, hl, -, heq⟩ := loadRoute_eq_some hav t0 arr s hs
  have hr : s.rawRoute = precompute hav (points t0 arr) := by rw [heq]
  have hlen : s.rawRoute.length = arr.length := by
    rw [hr, precompute_length, points_length]
  have hpos : 0 < arr.length := List.length_pos.2 hne
  refine ⟨s, hs, hlen, fun k w hw => ?_, fun k w hw hk => ?_, ?_⟩
  · rw [hr] at hw
    exact synthetic_times hav t0 arr hnone k w hw
  · rw [hr] at hw
    have hk1 : k + 1 < (precompute hav (points t0 arr)).length := by
      rw [← hr, hlen]; exact hk
    have hw1 := List.getElem?_eq_getElem hk1
    rw [(precompute_fields hav (points t0 arr) k w _ hw hw1).2,
      synthetic_times hav t0 arr hnone k w hw,
      synthetic_times hav t0 arr hnone (k + 1) _ hw1]
    congr 1
    push_cast
    ring
  · have htot : s.totalDuration = last.time - first.time := by rw [heq]
    rw [htot, synthetic_times hav t0 arr hnone _ last hl,
      synthetic_times hav t0 arr hnone 0 first hf, precompute_length, points_length,
      Nat.cast_sub hpos]
    push_cast
    ring

/-- Scenario E: three points without timestamps, loaded at `t0 = 7`, get the
times `[7, 5007, 10007]` and `totalDuration = 10000`. -/
theorem synthetic_timeline_witness :
    (loadRoute demoHav 7 untimedArr).map
        (fun s => (s.rawRoute.map (fun p => p.time), s.totalDuration))
      = some ([7, 5007, 10007], 10000) ∧
    ∃ s, loadRoute demoHav 7 untimedArr = some s ∧
      s.rawRoute.length = untimedArr.length ∧
      (∀ (k : Nat) (w : Waypoint), s.rawRoute[k]? = some w → w.time = 7 + 5000 * (k : ℚ)) ∧
      (∀ (k : Nat) (w : Waypoint), s.rawRoute[k]? = some w → k + 1 < untimedArr.length →
        w.durToNext = some 5000) ∧
      s.totalDuration = 5000 * ((untimedArr.length : ℚ) - 1) :=
  ⟨by decide!,
   synthetic_timeline demoHav 7 untimedArr ⟨⟨0, 0, none⟩, by simp [untimedArr], rfl⟩⟩

/-! ## Claims about loading errors and the controls -/

/-- C11. Empty route is an error: `loadRoute` fails (the `TypeError` of line 82,
before `initMap` and any assignment to `simTime`) exactly when the input has
zero points; on every input with at least one point it returns a state. -/
theorem loadRoute_fails_iff_empty (hav : LatLng → LatLng → ℚ) (t0 : ℚ)
    (arr : List RawPoint) :
    (loadRoute hav t0 arr = none ↔ arr = []) ∧
    (arr ≠ [] → ∃ s, loadRoute hav t0 arr = some s) := by
  refine ⟨⟨fun h => ?_, fun h => ?_⟩, loadRoute_total hav t0 arr⟩
  · by_contra hne
    obtain ⟨s, hs⟩ := loadRoute_total hav t0 arr hne
    rw [h] at hs
    cases hs
  · subst h
    rfl

theorem animate_speed (s s1 : State) (ts : ℚ) (h : animate s ts = some s1) :
    s1.speedMultiplier = s.speedMultiplier ∧ s1.rawRoute = s.rawRoute := by
  cases hp : s.isPlaying with
  | false =>
    rw [animate_paused s ts hp] at h
    cases h
    exact ⟨rfl, rfl⟩
  | true =>
    cases hl : s.rawRoute[s.rawRoute.length - 1]? with
    | none =>
      unfold animate at h
      simp [hp, hl] at h
    | some last =>
      obtain ⟨s2, h2, hr, hm, -⟩ := animate_playing s ts last hl hp
      rw [h2] at h
      cases h
      exact ⟨hm, hr⟩

theorem restart_speed (s s1 : State) (h : restart s = some s1) :
    s1.speedMultiplier = s.speedMultiplier ∧ s1.rawRoute = s.rawRoute := by
  cases hf : s.rawRoute[0]? with
  | none =>
    unfold restart at h
    simp [hf] at h
  | some first =>
    obtain ⟨s2, h2, hr, -, -, hm, -⟩ := restart_total s first hf
    rw [h2] at h
    cases h
    exact ⟨hm, hr⟩

theorem run_speed_pos (evs : List Event) :
    ∀ s s1 : State, run s evs = some s1 → 0 < s.speedMultiplier →
      (∀ m, Event.speed m ∈ evs → 0 < m) → 0 < s1.speedMultiplier := by
  induction evs with
  | nil =>
    intro s s1 h hm _
    simp only [run, Option.some.injEq] at h
    subst h; exact hm
  | cons e es ih =>
    intro s s1 h hm hsp
    rw [run] at h
    cases hstep : step s e with
    | none => rw [hstep] at h; simp at h
    | some s2 =>
      rw [hstep] at h
      simp only [Option.some_bind] at h
      have hsp2 : ∀ m, Event.speed m ∈ es → 0 < m :=
        fun m hmem => hsp m (List.mem_cons_of_mem _ hmem)
      refine ih s2 s1 h ?_ hsp2
      cases e with
      | frame ts =>
        rw [(animate_speed s s2 ts hstep).1]; exact hm
      | toggle =>
        simp only [step, Option.some.injEq] at hstep
        subst hstep; exact hm
      | speed m =>
        simp only [step, Option.some.injEq] at hstep
        subst hstep
        exact hsp m (List.mem_cons_self _ _)
      | restart =>
        rw [(restart_speed s s2 hstep).1]; exact hm

/-- C12, counterexample. The set-speed control accepts the multipliers `-1` and
`0`: after it `speedMultiplier` is `-1` (resp. `0`), in a state reached from
`loadRoute`. -/
theorem setSpeed_rejects_counterexample :
    loadRoute demoHav 0 demoArr = some demoState ∧
    (run demoState [.speed (-1)]).map (fun s => s.speedMultiplier) = some (-1) ∧
    (run demoState [.speed 0]).map (fun s => s.speedMultiplier) = some 0 ∧
    (setSpeed demoState (-1)).speedMultiplier ≠ demoState.speedMultiplier := by
  refine ⟨by decide!, by decide!, by decide!, by decide!⟩

/-- C12, amended. The set-speed control validates nothing: for every requested
multiplier `m` it stores `m` in `speedMultiplier` and changes nothing else; so
`speedMultiplier > 0` holds in a state reached from a state with a positive
multiplier whenever every multiplier requested on the way is positive. -/
theorem setSpeed_stores (s s1 : State) (m : ℚ) (evs : List Event)
    (hpos : 0 < s.speedMultiplier)
    (hreq : ∀ x, Event.speed x ∈ evs → 0 < x)
    (hrun : run s evs = some s1) :
    setSpeed s m = { s with speedMultiplier := m } ∧
    (setSpeed s m).speedMultiplier = m ∧
    0 < s1.speedMultiplier :=
  ⟨rfl, rfl, run_speed_pos evs s s1 hrun hpos hreq⟩

/-- The amended C12 on the two-point route: speed 2, play, one frame. -/
theorem setSpeed_stores_witness :
    setSpeed demoState 2 = { demoState with speedMultiplier := 2 } ∧
    (setSpeed demoState 2).speedMultiplier = 2 ∧
    0 < ({ demoState with speedMultiplier := 2, isPlaying := true,
                           playLabel := some "Pause", lastFrameTs := some 100 } :
          State).speedMultiplier :=
  setSpeed_stores demoState _ 2 [.speed 2, .toggle, .frame 100]
    (by decide!) (by intro x hx; simp at hx; rw [hx]; norm_num) (by decide!)

/-- C14. Restart is idempotent: on a loaded route `restart` returns a state on
which a second `restart` changes nothing (the whole state is equal, so are
`simTime`, `isPlaying`, `speedMultiplier` and the traveled path); after it
`simTime = first.time`, the traveled path is the first waypoint alone, and
`isPlaying` and `speedMultiplier` are unchanged. -/
theorem restart_idempotent (s : State) (first : Waypoint)
    (hf : s.rawRoute[0]? = some first) :
    ∃ s1, restart s = some s1 ∧ restart s1 = some s1 ∧
      s1.simTime = first.time ∧ s1.isPlaying = s.isPlaying ∧
      s1.speedMultiplier = s.speedMultiplier ∧
      s1.livePolyline = [⟨first.lat, first.lng⟩] := by
  obtain ⟨a, tl, hr⟩ : ∃ a tl, s.rawRoute = a :: tl := by
    cases hr : s.rawRoute with
    | nil => rw [hr] at hf; simp at hf
    | cons a tl => exact ⟨a, tl, rfl⟩
  obtain ⟨ui, hui, -⟩ := updateUIForTime_cons a tl first.time
  rw [← hr] at hui
  by_cases hp : s.isPlaying = true
  · refine ⟨{ s with simTime := first.time, livePolyline := [⟨first.lat, first.lng⟩],
                     marker := ⟨first.lat, first.lng⟩ }, ?_, ?_, rfl, rfl, rfl, rfl⟩
    · unfold restart
      simp only [hf, hp, Option.some_bind, Option.bind_eq_bind, Bool.not_true,
        Bool.false_eq_true, if_false, Option.pure_def]
    · unfold restart
      simp only [hf, hp, Option.some_bind, Option.bind_eq_bind, Bool.not_true,
        Bool.false_eq_true, if_false, Option.pure_def]
  · have hp2 : s.isPlaying = false := by simpa using hp
    refine ⟨{ s with simTime := first.time, livePolyline := [⟨first.lat, first.lng⟩],
                     marker := ⟨first.lat, first.lng⟩, ui := ui }, ?_, ?_, rfl, rfl, rfl,
      rfl⟩
    · unfold restart
      simp only [hf, hp2, Option.some_bind, Option.bind_eq_bind, Bool.not_false,
        if_true, Option.pure_def, hui]
    · unfold restart
      simp only [hf, hp2, Option.some_bind, Option.bind_eq_bind, Bool.not_false,
        if_true, Option.pure_def, hui]

/-- C14 on the two-point route, in the playing state of Scenario C. -/
theorem restart_idempotent_witness :
    ∃ s1, restart scenarioC = some s1 ∧ restart s1 = some s1 ∧
      s1.simTime = (0 : ℚ) ∧ s1.isPlaying = scenarioC.isPlaying ∧
      s1.speedMultiplier = scenarioC.speedMultiplier ∧
      s1.livePolyline = [⟨0, 0⟩] :=
  restart_idempotent scenarioC ⟨0, 0, 0, some 111195, some 500⟩ (by decide!)

/-- C15. Advance is a no-op while paused: in a state with `isPlaying = false` a
frame returns and leaves `simTime`, `isPlaying`, `speedMultiplier`, the marker,
the traveled path and the displayed numbers unchanged. -/
theorem animate_noop_when_paused (s : State) (ts : ℚ) (hp : s.isPlaying = false) :
    ∃ s1, animate s ts = some s1 ∧ s1.simTime = s.simTime ∧
      s1.isPlaying = s.isPlaying ∧ s1.speedMultiplier = s.speedMultiplier ∧
      s1.marker = s.marker ∧ s1.livePolyline = s.livePolyline ∧ s1.ui = s.ui ∧
      s1.rawRoute = s.rawRoute :=
  ⟨_, animate_paused s ts hp, rfl, rfl, rfl, rfl, rfl, rfl, rfl⟩

/-- C15 on the freshly loaded two-point route, frame at 1234 ms. -/
theorem animate_noop_when_paused_witness :
    ∃ s1, animate demoState 1234 = some s1 ∧ s1.simTime = demoState.simTime ∧
      s1.isPlaying = demoState.isPlaying ∧
      s1.speedMultiplier = demoState.speedMultiplier ∧
      s1.marker = demoState.marker ∧ s1.livePolyline = demoState.livePolyline ∧
      s1.ui = demoState.ui ∧ s1.rawRoute = demoState.rawRoute :=
  animate_noop_when_paused demoState 1234 (by decide!)

theorem resume_resyncs_of_le (s : State) (ts : ℚ) (last : Waypoint)
    (hl : s.rawRoute[s.rawRoute.length - 1]? = some last)
    (hp : s.isPlaying = false) (hle : s.simTime ≤ last.time) :
    (togglePlay s).isPlaying = true ∧
    (togglePlay s).simTime = s.simTime ∧
    frameDelta (togglePlay s).lastFrameTs ts = 0 ∧
    ∃ s1, animate (togglePlay s) ts = some s1 ∧ s1.simTime = s.simTime := by
  have hplay : (togglePlay s).isPlaying = true := by simp [togglePlay, hp]
  have hlf : (togglePlay s).lastFrameTs = none := by simp [togglePlay, hp]
  have hdt : frameDelta (togglePlay s).lastFrameTs ts = 0 := by
    rw [hlf]; simp [frameDelta]
  refine ⟨hplay, rfl, hdt, ?_⟩
  obtain ⟨s1, ha, -, -, -, hge, hlt⟩ := animate_playing (togglePlay s) ts last hl hplay
  rw [hdt] at hge hlt
  have hsim : (togglePlay s).simTime = s.simTime := rfl
  rw [hsim, zero_mul, add_zero] at hge hlt
  refine ⟨s1, ha, ?_⟩
  rcases le_or_lt last.time s.simTime with hc | hc
  · rw [(hge hc).1]; exact le_antisymm hc hle
  · exact (hlt hc).1

theorem step_le_last (r : List Waypoint) (first last : Waypoint)
    (hf : r[0]? = some first) (hl : r[r.length - 1]? = some last)
    (hle : first.time ≤ last.time) (s s1 : State) (e : Event)
    (hr : s.rawRoute = r) (hsim : s.simTime ≤ last.time) (h : step s e = some s1) :
    s1.rawRoute = r ∧ s1.simTime ≤ last.time := by
  cases e with
  | frame ts =>
    simp only [step] at h
    cases hp : s.isPlaying with
    | false =>
      rw [animate_paused s ts hp] at h
      cases h
      exact ⟨hr, hsim⟩
    | true =>
      obtain ⟨s2, h2, hr2, -, -, hge, hlt⟩ :=
        animate_playing s ts last (by rw [hr]; exact hl) hp
      rw [h2] at h
      cases h
      refine ⟨hr2.trans hr, ?_⟩
      rcases le_or_lt last.time
        (s.simTime + frameDelta s.lastFrameTs ts * s.speedMultiplier) with hc | hc
      · rw [(hge hc).1]
      · rw [(hlt hc).1]; exact hc.le
  | toggle =>
    simp only [step, Option.some.injEq] at h
    subst h; exact ⟨hr, hsim⟩
  | speed m =>
    simp only [step, Option.some.injEq] at h
    subst h; exact ⟨hr, hsim⟩
  | restart =>
    simp only [step] at h
    obtain ⟨s2, h2, hr2, hs2, -⟩ := restart_total s first (by rw [hr]; exact hf)
    rw [h2] at h
    cases h
    exact ⟨hr2.trans hr, by rw [hs2]; exact hle⟩

theorem run_le_last (r : List Waypoint) (first last : Waypoint)
    (hf : r[0]? = some first) (hl : r[r.length - 1]? = some last)
    (hle : first.time ≤ last.time) (evs : List Event) :
    ∀ s s1 : State, s.rawRoute = r → s.simTime ≤ last.time → run s evs = some s1 →
      s1.rawRoute = r ∧ s1.simTime ≤ last.time := by
  induction evs with
  | nil =>
    intro s s1 hr hsim h
    simp only [run, Option.some.injEq] at h
    subst h; exact ⟨hr, hsim⟩
  | cons e es ih =>
    intro s s1 hr hsim h
    rw [run] at h
    cases hstep : step s e with
    | none => rw [hstep] at h; simp at h
    | some s2 =>
      rw [hstep] at h
      simp only [Option.some_bind] at h
      obtain ⟨hr2, hsim2⟩ := step_le_last r first last hf hl hle s s2 e hr hsim hstep
      exact ih s2 s1 hr2 hsim2 h

/-- C16. Re-sync on resume: in every paused state reached from the state built by
`loadRoute` (non-decreasing timestamps), after `togglePlay` the state is
playing, the first frame computes a real delta of 0 whatever its timestamp
(however long the pause lasted), and `simTime` after that frame equals `simTime`
before it. -/
theorem resume_resyncs (hav : LatLng → LatLng → ℚ) (t0 : ℚ) (arr : List RawPoint)
    (s0 s : State) (evs : List Event) (ts : ℚ)
    (hload : loadRoute hav t0 arr = some s0)
    (hmono : NonDecreasing s0.rawRoute)
    (hrun : run s0 evs = some s)
    (hp : s.isPlaying = false) :
    (togglePlay s).isPlaying = true ∧
    (togglePlay s).simTime = s.simTime ∧
    frameDelta (togglePlay s).lastFrameTs ts = 0 ∧
    ∃ s1, animate (togglePlay s) ts = some s1 ∧ s1.simTime = s.simTime := by
  obtain ⟨first, last, ui, hf, hl, -, hs⟩ := loadRoute_eq_some hav t0 arr s0 hload
  have hr : s0.rawRoute = precompute hav (points t0 arr) := by rw [hs]
  rw [← hr] at hf hl
  have hle := nonDecreasing_first_le_last s0.rawRoute first last hmono hf hl
  have hsim0 : s0.simTime = first.time := by rw [hs]
  obtain ⟨hrs, hsim⟩ := run_le_last s0.rawRoute first last hf hl hle evs s0 s rfl
    (by rw [hsim0]; exact hle) hrun
  exact resume_resyncs_of_le s ts last (by rw [hrs]; exact hl) hp hsim

/-- C16 on the two-point route: paused at `simTime = 200` with the previous frame
at 300 ms, resumed, next frame at 987654 ms. -/
theorem resume_resyncs_witness :
    (togglePlay pausedState).isPlaying = true ∧
    (togglePlay pausedState).simTime = pausedState.simTime ∧
    frameDelta (togglePlay pausedState).lastFrameTs 987654 = 0 ∧
    ∃ s1, animate (togglePlay pausedState) 987654 = some s1 ∧
      s1.simTime = pausedState.simTime :=
  resume_resyncs demoHav 0 demoArr demoState pausedState
    [.toggle, .frame 100, .frame 300, .toggle] 987654
    (by decide!) (by simp [NonDecreasing, demoState]) (by decide!) (by decide!)

/-- C17. Monotonic simulated time: in every state reached from the state built
by `loadRoute` (non-decreasing timestamps) through events whose requested speed
multipliers are positive, a frame with real delta `≥ 0` returns and its
`simTime` is greater than or equal to the `simTime` before the frame. -/
theorem simTime_monotone (hav : LatLng → LatLng → ℚ) (t0 : ℚ) (arr : List RawPoint)
    (s0 s : State) (evs : List Event) (ts : ℚ)
    (hload : loadRoute hav t0 arr = some s0)
    (hmono : NonDecreasing s0.rawRoute)
    (hspeed : ∀ m, Event.speed m ∈ evs → 0 < m)
    (hrun : run s0 evs = some s)
    (hdt : 0 ≤ frameDelta s.lastFrameTs ts) :
    ∃ s1, animate s ts = some s1 ∧ s.simTime ≤ s1.simTime := by
  obtain ⟨first, last, ui, hf, hl, -, hs⟩ := loadRoute_eq_some hav t0 arr s0 hload
  have hr : s0.rawRoute = precompute hav (points t0 arr) := by rw [hs]
  rw [← hr] at hf hl
  have hle := nonDecreasing_first_le_last s0.rawRoute first last hmono hf hl
  have hsim0 : s0.simTime = first.time := by rw [hs]
  have hm0 : s0.speedMultiplier = 1 := by rw [hs]
  obtain ⟨hrs, hsim⟩ := run_le_last s0.rawRoute first last hf hl hle evs s0 s rfl
    (by rw [hsim0]; exact hle) hrun
  have hm : 0 < s.speedMultiplier :=
    run_speed_pos evs s0 s hrun (by rw [hm0]; norm_num) hspeed
  cases hp : s.isPlaying with
  | false =>
    exact ⟨_, animate_paused s ts hp, le_refl _⟩
  | true =>
    obtain ⟨s1, ha, -, -, -, hge, hlt⟩ :=
      animate_playing s ts last (by rw [hrs]; exact hl) hp
    refine ⟨s1, ha, ?_⟩
    rcases le_or_lt last.time
      (s.simTime + frameDelta s.lastFrameTs ts * s.speedMultiplier) with hc | hc
    · rw [(hge hc).1]; exact hsim
    · rw [(hlt hc).1]
      have := mul_nonneg hdt hm.le
      linarith

/-- C17 on the two-point route: speed 2, play, frames at 100 and 200 ms, then a
frame at 300 ms. -/
theorem simTime_monotone_witness :
    ∃ s1, animate runningState 300 = some s1 ∧ runningState.simTime ≤ s1.simTime :=
  simTime_monotone demoHav 0 demoArr demoState runningState
    [.speed 2, .toggle, .frame 100, .frame 200] 300
    (by decide!) (by simp [NonDecreasing, demoState])
    (by intro m hm; simp at hm; rw [hm]; norm_num) (by decide!) (by decide!)

/-- The rounding of doubles on known values: 1 and 0.5 are doubles; 0.1 rounds
to `3602879701896397 / 2⁵⁵`; `2⁵³ + 1` is a tie and goes to the even `2⁵³`,
`2⁵³ + 3` to `2⁵³ + 4`; the rounding of `-0.3` is the opposite of that of
`0.3`. -/
theorem roundDouble_examples :
    roundDouble 1 = 1 ∧ roundDouble 0.5 = 0.5 ∧
    roundDouble 0.1 = 3602879701896397 / 2 ^ 55 ∧
    roundDouble (2 ^ 53 + 1) = 2 ^ 53 ∧ roundDouble (2 ^ 53 + 3) = 2 ^ 53 + 4 ∧
    roundDouble (-0.3) = -roundDouble 0.3 := by
  refine ⟨by decide!, by decide!, by decide!, by decide!, by decide!, by decide!⟩

/-- C19, counterexample. On the route `(0.3,0)@0`, `(0.9,0)@10` at
`t = last.time = 10` the sampler takes segment 0 with fraction 1, within
`[0, 1]`; lines 156-157 in double arithmetic then give the latitude
`0.9 + 2⁻⁵³` (0.9000000000000001), which is greater than both `lat_0 = 0.3` and
`lat_1 = 0.9`. -/
theorem segment_containment_counterexample :
    (loadRoute demoHav 0 inexactArr).bind (fun s => findSegment s.rawRoute 10) = some 0 ∧
    (if (10 : ℚ) - 0 = 0 then 1 else (10 - 0) / (10 - 0)) = (1 : ℚ) ∧
    roundDouble 0.3 = 5404319552844595 / 2 ^ 54 ∧
    roundDouble 0.9 = 8106479329266893 / 2 ^ 53 ∧
    lerpDouble (roundDouble 0.3) (roundDouble 0.9) 1 = 8106479329266894 / 2 ^ 53 ∧
    max (roundDouble 0.3) (roundDouble 0.9) < lerpDouble (roundDouble 0.3) (roundDouble 0.9) 1 := by
  refine ⟨by decide!, by decide!, by decide!, by decide!, by decide!, by decide!⟩

/-- C19, amended. For a route of at least two waypoints and a time `t` in
`[first.time, last.time]`, `updateMarkerForSimTime` returns; the fraction it
computes for the selected segment `i` satisfies `0 ≤ frac ≤ 1`, and the marker is
at the interpolation formula `lat_i + (lat_{i+1} − lat_i) × frac`,
`lng_i + (lng_{i+1} − lng_i) × frac` at that fraction. -/
theorem segment_containment (s : State) (first last : Waypoint) (t : ℚ)
    (hlen : 2 ≤ s.rawRoute.length)
    (hf : s.rawRoute[0]? = some first)
    (hl : s.rawRoute[s.rawRoute.length - 1]? = some last)
    (h1 : first.time ≤ t) (h2 : t ≤ last.time) :
    ∃ i p0 p1 s1 frac, findSegment s.rawRoute t = some i ∧
      s.rawRoute[i]? = some p0 ∧ s.rawRoute[i + 1]? = some p1 ∧
      p0.time ≤ t ∧ t ≤ p1.time ∧
      updateMarkerForSimTime s t = some s1 ∧
      frac = (if p1.time - p0.time = 0 then 1 else (t - p0.time) / (p1.time - p0.time)) ∧
      0 ≤ frac ∧ frac ≤ 1 ∧
      s1.marker = ⟨lerp p0.lat p1.lat frac, lerp p0.lng p1.lng frac⟩ := by
  obtain ⟨i, hseg⟩ := findSegment_exists s.rawRoute t first last hlen hf hl h1 h2
  obtain ⟨⟨p0, p1, h0, hp1, hle0, hle1⟩, -⟩ := (findSegment_some_iff _ _ _).1 hseg
  obtain ⟨ui, -, hm⟩ := updateMarker_seg s t i first p0 p1 hf hseg h0 hp1
  have hfrac : 0 ≤ (if p1.time - p0.time = 0 then (1 : ℚ)
      else (t - p0.time) / (p1.time - p0.time)) ∧
      (if p1.time - p0.time = 0 then (1 : ℚ)
      else (t - p0.time) / (p1.time - p0.time)) ≤ 1 := by
    by_cases hz : p1.time - p0.time = 0
    · rw [if_pos hz]; norm_num
    · rw [if_neg hz]
      have hpos : 0 < p1.time - p0.time :=
        lt_of_le_of_ne (by linarith) (Ne.symm hz)
      exact ⟨div_nonneg (by linarith) hpos.le, (div_le_one hpos).2 (by linarith)⟩
  exact ⟨i, p0, p1, _, _, hseg, h0, hp1, hle0, hle1, hm, rfl, hfrac.1, hfrac.2, rfl⟩

/-- The amended C19 on the route `(0,0)@0`, `(0,1)@10000` at `t = 5000`. -/
theorem segment_containment_witness :
    ∃ i p0 p1 s1 frac, findSegment scenarioState.rawRoute 5000 = some i ∧
      scenarioState.rawRoute[i]? = some p0 ∧ scenarioState.rawRoute[i + 1]? = some p1 ∧
      p0.time ≤ 5000 ∧ 5000 ≤ p1.time ∧
      updateMarkerForSimTime scenarioState 5000 = some s1 ∧
      frac = (if p1.time - p0.time = 0 then 1
              else (5000 - p0.time) / (p1.time - p0.time)) ∧
      0 ≤ frac ∧ frac ≤ 1 ∧
      s1.marker = ⟨lerp p0.lat p1.lat frac, lerp p0.lng p1.lng frac⟩ :=
  segment_containment scenarioState ⟨0, 0, 0, some 111195, some 10000⟩ scenarioLast 5000
    (by decide!) (by decide!) (by decide!) (by decide!) (by decide!)

/-! ## Monotonicity and bounds of the distance traveled -/

theorem sumDistances_ge (hav : LatLng → LatLng → ℚ) (hnn : ∀ a b, 0 ≤ hav a b)
    (pts : List Waypoint) : ∀ acc : ℚ, acc ≤ sumDistances hav pts acc := by
  induction pts with
  | nil => intro acc; exact le_refl _
  | cons a tl ih =>
    cases tl with
    | nil => intro acc; exact le_refl _
    | cons b rest =>
      intro acc
      rw [sumDistances]
      have := ih (acc + hav ⟨a.lat, a.lng⟩ ⟨b.lat, b.lng⟩)
      have := hnn ⟨a.lat, a.lng⟩ ⟨b.lat, b.lng⟩
      linarith

theorem distLoop_precompute_step (hav : LatLng → LatLng → ℚ) (t acc : ℚ)
    (a b : Waypoint) (rest : List Waypoint) :
    distLoop t (precompute hav (a :: b :: rest)) (some acc) =
      if b.time ≤ t then
        distLoop t (precompute hav (b :: rest))
          (some (acc + hav ⟨a.lat, a.lng⟩ ⟨b.lat, b.lng⟩))
      else if a.time ≤ t then
        some (acc + hav ⟨a.lat, a.lng⟩ ⟨b.lat, b.lng⟩ *
          max 0 ((t - a.time) / (b.time - a.time)))
      else some acc := by
  obtain ⟨b1, rest1, hb, -⟩ := precompute_cons hav b rest
  rw [precompute, hb, distLoop_step t acc (b.time - a.time)
    (hav ⟨a.lat, a.lng⟩ ⟨b.lat, b.lng⟩) _ b1 rest1 rfl rfl]
  by_cases h1 : b.time ≤ t
  · have h1' : a.time + (b.time - a.time) ≤ t := by linarith
    simp only [h1, h1', if_true]
  · have h1' : ¬ (a.time + (b.time - a.time) ≤ t) := by
      intro h; apply h1; linarith
    simp only [h1, h1', if_false]
    by_cases h2 : a.time ≤ t
    · have hne : b.time - a.time ≠ 0 := by
        intro h; apply h1; linarith
      simp only [h2, if_true, hne, if_false]
    · simp only [h2, if_false]

theorem distLoop_bounds (hav : LatLng → LatLng → ℚ) (hnn : ∀ a b, 0 ≤ hav a b) (t : ℚ)
    (pts : List Waypoint) :
    ∀ acc : ℚ, ∃ x, distLoop t (precompute hav pts) (some acc) = some x ∧ acc ≤ x ∧
      x ≤ sumDistances hav pts acc := by
  induction pts with
  | nil => intro acc; exact ⟨acc, rfl, le_refl _, le_refl _⟩
  | cons a tl ih =>
    cases tl with
    | nil => intro acc; exact ⟨acc, rfl, le_refl _, le_refl _⟩
    | cons b rest =>
      intro acc
      have hd := hnn ⟨a.lat, a.lng⟩ ⟨b.lat, b.lng⟩
      have hsum := sumDistances_ge hav hnn (b :: rest)
        (acc + hav ⟨a.lat, a.lng⟩ ⟨b.lat, b.lng⟩)
      rw [distLoop_precompute_step, sumDistances]
      by_cases h1 : b.time ≤ t
      · rw [if_pos h1]
        obtain ⟨x, hx, hlo, hhi⟩ := ih (acc + hav ⟨a.lat, a.lng⟩ ⟨b.lat, b.lng⟩)
        exact ⟨x, hx, by linarith, hhi⟩
      · rw [if_neg h1]
        by_cases h2 : a.time ≤ t
        · rw [if_pos h2]
          have hpos : 0 < b.time - a.time := by
            have := not_le.1 h1
            linarith
          have hf0 : 0 ≤ (t - a.time) / (b.time - a.time) :=
            div_nonneg (by linarith) hpos.le
          have hf1 : (t - a.time) / (b.time - a.time) ≤ 1 :=
            (div_le_one hpos).2 (by have := not_le.1 h1; linarith)
          rw [max_eq_right hf0]
          refine ⟨_, rfl, ?_, ?_⟩
          · have := mul_nonneg hd hf0
            linarith
          · have := mul_le_mul_of_nonneg_left hf1 hd
            linarith
        · rw [if_neg h2]
          exact ⟨acc, rfl, le_refl _, by linarith⟩

theorem distLoop_mono (hav : LatLng → LatLng → ℚ) (hnn : ∀ a b, 0 ≤ hav a b) (t u : ℚ)
    (htu : t ≤ u) (pts : List Waypoint) :
    ∀ acc acc2 x y : ℚ, acc ≤ acc2 →
      distLoop t (precompute hav pts) (some acc) = some x →
      distLoop u (precompute hav pts) (some acc2) = some y → x ≤ y := by
  induction pts with
  | nil =>
    intro acc acc2 x y hacc hx hy
    simp only [precompute, distLoop, Option.some.injEq] at hx hy
    linarith
  | cons a tl ih =>
    cases tl with
    | nil =>
      intro acc acc2 x y hacc hx hy
      simp only [precompute, distLoop, Option.some.injEq] at hx hy
      linarith
    | cons b rest =>
      intro acc acc2 x y hacc hx hy
      have hd := hnn ⟨a.lat, a.lng⟩ ⟨b.lat, b.lng⟩
      rw [distLoop_precompute_step] at hx hy
      have hylo : ∀ z, acc2 ≤ z → distLoop u (precompute hav (b :: rest)) (some z)
          = some y → z ≤ y := by
        intro z _ hz
        obtain ⟨w, hw, hlo, -⟩ := distLoop_bounds hav hnn u (b :: rest) z
        rw [hw] at hz
        cases hz
        exact hlo
      by_cases h1 : b.time ≤ t
      · have h1u : b.time ≤ u := le_trans h1 htu
        rw [if_pos h1] at hx
        rw [if_pos h1u] at hy
        exact ih _ _ x y (by linarith) hx hy
      · rw [if_neg h1] at hx
        by_cases h2 : a.time ≤ t
        · rw [if_pos h2] at hx
          have hpos : 0 < b.time - a.time := by
            have := not_le.1 h1
            linarith
          have hf0 : 0 ≤ (t - a.time) / (b.time - a.time) :=
            div_nonneg (by linarith) hpos.le
          have hf1 : (t - a.time) / (b.time - a.time) ≤ 1 :=
            (div_le_one hpos).2 (by have := not_le.1 h1; linarith)
          rw [max_eq_right hf0] at hx
          simp only [Option.some.injEq] at hx
          by_cases h1u : b.time ≤ u
          · rw [if_pos h1u] at hy
            have := hylo _ (by linarith) hy
            have := mul_le_mul_of_nonneg_left hf1 hd
            linarith
          · rw [if_neg h1u, if_pos (le_trans h2 htu)] at hy
            have hg0 : 0 ≤ (u - a.time) / (b.time - a.time) :=
              div_nonneg (by linarith) hpos.le
            rw [max_eq_right hg0] at hy
            simp only [Option.some.injEq] at hy
            have hfg : (t - a.time) / (b.time - a.time) ≤ (u - a.time) / (b.time - a.time) :=
              div_le_div_of_nonneg_right (by linarith) hpos.le
            have := mul_le_mul_of_nonneg_left hfg hd
            linarith
        · rw [if_neg h2] at hx
          simp only [Option.some.injEq] at hx
          obtain ⟨w, hw, hlo, -⟩ := distLoop_bounds hav hnn u (a :: b :: rest) acc2
          rw [distLoop_precompute_step] at hw
          rw [hw] at hy
          cases hy
          linarith

/-- C20. Distance traveled is monotone and bounded: for a route loaded by
`loadRoute` with non-negative segment distances, `updateUIForTime` returns at
every `t` with a numeric distance between 0 and `totalDistance`; the distance is
a non-decreasing function of `t`; and it is 0 at `t = first.time` when the first
segment has positive duration. -/
theorem distance_monotone_bounded (hav : LatLng → LatLng → ℚ) (t0 : ℚ)
    (arr : List RawPoint) (s : State)
    (hload : loadRoute hav t0 arr = some s)
    (hnn : ∀ a b, 0 ≤ hav a b) :
    (∀ t, ∃ ui x, updateUIForTime s.rawRoute t = some ui ∧ ui.dist = some x ∧
      0 ≤ x ∧ x ≤ s.totalDistance) ∧
    (∀ (t u : ℚ) (ui1 ui2 : UI) (x y : ℚ), t ≤ u →
      updateUIForTime s.rawRoute t = some ui1 → updateUIForTime s.rawRoute u = some ui2 →
      ui1.dist = some x → ui2.dist = some y → x ≤ y) ∧
    (∀ p0 p1 : Waypoint, s.rawRoute[0]? = some p0 → s.rawRoute[1]? = some p1 →
      p0.time < p1.time →
      ∃ ui, updateUIForTime s.rawRoute p0.time = some ui ∧ ui.dist = some 0) := by
  obtain ⟨first, last, ui0, hf, -, -, hs⟩ := loadRoute_eq_some hav t0 arr s hload
  have hr : s.rawRoute = precompute hav (points t0 arr) := by rw [hs]
  have htot : s.totalDistance = sumDistances hav (points t0 arr) 0 := by rw [hs]
  rw [← hr] at hf
  have hui : ∀ t, ∃ ui, updateUIForTime s.rawRoute t = some ui ∧
      ui.dist = distLoop t (precompute hav (points t0 arr)) (some 0) := by
    intro t
    cases hc : s.rawRoute with
    | nil => rw [hc] at hf; simp at hf
    | cons a tl =>
      obtain ⟨ui, h1, -, h2⟩ := updateUIForTime_cons a tl t
      refine ⟨ui, h1, ?_⟩
      rw [h2, ← hc, hr]
  refine ⟨fun t => ?_, fun t u ui1 ui2 x y htu h1 h2 hx hy => ?_, fun p0 p1 h0 h1 hlt => ?_⟩
  · obtain ⟨ui, h1, h2⟩ := hui t
    obtain ⟨x, hx, hlo, hhi⟩ := distLoop_bounds hav hnn t (points t0 arr) 0
    exact ⟨ui, x, h1, by rw [h2, hx], hlo, by rw [htot]; exact hhi⟩
  · obtain ⟨ui, h3, h4⟩ := hui t
    obtain ⟨ui', h5, h6⟩ := hui u
    rw [h1] at h3
    rw [h2] at h5
    cases h3
    cases h5
    rw [h4] at hx
    rw [h6] at hy
    exact distLoop_mono hav hnn t u htu (points t0 arr) 0 0 x y (le_refl _) hx hy
  · obtain ⟨ui, h2, h3⟩ := hui p0.time
    refine ⟨ui, h2, ?_⟩
    rw [h3]
    rw [hr] at h0 h1
    cases hp : points t0 arr with
    | nil => rw [hp] at h0; simp [precompute] at h0
    | cons a tl =>
      cases tl with
      | nil => rw [hp] at h1; simp [precompute] at h1
      | cons b rest =>
        rw [hp] at h0 h1
        obtain ⟨b1, rest1, hb, hbt, -⟩ := precompute_cons hav b rest
        rw [precompute] at h0 h1
        rw [hb] at h1
        simp only [List.getElem?_cons_zero, Option.some.injEq, List.getElem?_cons_succ]
          at h0 h1
        have ha : p0.time = a.time := by rw [← h0]
        have hb2 : p1.time = b.time := by rw [← h1, hbt]
        rw [distLoop_precompute_step, ha]
        have hn : ¬ (b.time ≤ a.time) := by
          rw [← ha, ← hb2]; exact not_le.2 hlt
        rw [if_neg hn, if_pos (le_refl _)]
        simp

/-- C20 on the route `(0,0)@0`, `(0,1)@10000` with its 111195 m segment. -/
theorem distance_monotone_bounded_witness :
    (∀ t, ∃ ui x, updateUIForTime scenarioState.rawRoute t = some ui ∧ ui.dist = some x ∧
      0 ≤ x ∧ x ≤ scenarioState.totalDistance) ∧
    (∀ (t u : ℚ) (ui1 ui2 : UI) (x y : ℚ), t ≤ u →
      updateUIForTime scenarioState.rawRoute t = some ui1 →
      updateUIForTime scenarioState.rawRoute u = some ui2 →
      ui1.dist = some x → ui2.dist = some y → x ≤ y) ∧
    (∀ p0 p1 : Waypoint, scenarioState.rawRoute[0]? = some p0 →
      scenarioState.rawRoute[1]? = some p1 → p0.time < p1.time →
      ∃ ui, updateUIForTime scenarioState.rawRoute p0.time = some ui ∧
        ui.dist = some 0) :=
  distance_monotone_bounded demoHav 0 scenarioArr scenarioState (by decide!)
    (by intro a b; simp [demoHav])

/-! ## Claims about the utilities -/

/-- C13. Haversine identity and symmetry: when `Math.sin` is odd,
`Math.sqrt(0) = 0`, `Math.sqrt(1) = 1` and `Math.atan2(0, 1) = 0`, for all
coordinates `a` and `b`, `haversineDistance(a, a) = 0` and
`haversineDistance(a, b) = haversineDistance(b, a)`. -/
theorem haversine_identity_symmetry (M : JSMath)
    (hodd : ∀ x, M.sin (-x) = -M.sin x)
    (hsqrt0 : M.sqrt 0 = 0) (hsqrt1 : M.sqrt 1 = 1) (hatan : M.atan2 0 1 = 0)
    (a b : LatLng) :
    haversineDistance M a a = 0 ∧
    haversineDistance M a b = haversineDistance M b a := by
  have hsin0 : M.sin 0 = 0 := by
    have h := hodd 0
    rw [neg_zero] at h
    linarith
  constructor
  · simp only [haversineDistance, sub_self, zero_mul, zero_div, hsin0, mul_zero, add_zero,
      sub_zero, hsqrt0, hsqrt1, hatan]
  · have hlat : (a.lat - b.lat) * M.pi / 180 / 2 = -((b.lat - a.lat) * M.pi / 180 / 2) := by
      ring
    have hlng : (a.lng - b.lng) * M.pi / 180 / 2 = -((b.lng - a.lng) * M.pi / 180 / 2) := by
      ring
    simp only [haversineDistance, hlat, hlng, hodd]
    have haa : M.sin ((b.lat - a.lat) * M.pi / 180 / 2) *
          M.sin ((b.lat - a.lat) * M.pi / 180 / 2) +
        M.cos (a.lat * M.pi / 180) * M.cos (b.lat * M.pi / 180) *
          M.sin ((b.lng - a.lng) * M.pi / 180 / 2) *
          M.sin ((b.lng - a.lng) * M.pi / 180 / 2) =
        -M.sin ((b.lat - a.lat) * M.pi / 180 / 2) *
          -M.sin ((b.lat - a.lat) * M.pi / 180 / 2) +
        M.cos (b.lat * M.pi / 180) * M.cos (a.lat * M.pi / 180) *
          -M.sin ((b.lng - a.lng) * M.pi / 180 / 2) *
          -M.sin ((b.lng - a.lng) * M.pi / 180 / 2) := by
      ring
    rw [haa]

/-- C13 with polynomial stand-ins for the `Math` functions, at `a = (1,3)` and
`b = (2,5)`. -/
theorem haversine_identity_symmetry_witness :
    haversineDistance polyMath ⟨1, 3⟩ ⟨1, 3⟩ = 0 ∧
    haversineDistance polyMath ⟨1, 3⟩ ⟨2, 5⟩ = haversineDistance polyMath ⟨2, 5⟩ ⟨1, 3⟩ :=
  haversine_identity_symmetry polyMath
    (by intro x; simp only [polyMath]; ring)
    (by simp [polyMath]) (by simp [polyMath]; norm_num) (by simp [polyMath]) ⟨1, 3⟩ ⟨2, 5⟩

theorem digitChar_digit : ∀ k, k < 10 →
    (Nat.digitChar k).isDigit = true ∧ (Nat.digitChar k).toNat - 48 = k := by
  decide

theorem foldl_numeral (l : List Char) : ∀ a : Nat,
    l.foldl (fun acc c => 10 * acc + (c.toNat - 48)) a =
      a * 10 ^ l.length + l.foldl (fun acc c => 10 * acc + (c.toNat - 48)) 0 := by
  induction l with
  | nil => intro a; simp
  | cons c l ih =>
    intro a
    simp only [List.foldl_cons, List.length_cons]
    rw [ih (10 * a + (c.toNat - 48)), ih (10 * 0 + (c.toNat - 48))]
    ring

theorem toDigitsCore_numeral (fuel : Nat) : ∀ (n : Nat) (ds : List Char), n < fuel →
    (∀ c, c ∈ ds → c.isDigit = true) →
    (∀ c, c ∈ Nat.toDigitsCore 10 fuel n ds → c.isDigit = true) ∧
    (Nat.toDigitsCore 10 fuel n ds).foldl (fun acc c => 10 * acc + (c.toNat - 48)) 0 =
      n * 10 ^ ds.length + ds.foldl (fun acc c => 10 * acc + (c.toNat - 48)) 0 ∧
    ds.length < (Nat.toDigitsCore 10 fuel n ds).length := by
  induction fuel with
  | zero => intro n ds h; omega
  | succ k ih =>
    intro n ds hn hds
    have hd := digitChar_digit (n % 10) (Nat.mod_lt _ (by norm_num))
    have hds2 : ∀ c, c ∈ Nat.digitChar (n % 10) :: ds → c.isDigit = true := by
      intro c hc
      rcases List.mem_cons.1 hc with rfl | hc
      · exact hd.1
      · exact hds c hc
    have hval : (Nat.digitChar (n % 10) :: ds).foldl
        (fun acc c => 10 * acc + (c.toNat - 48)) 0 =
        (n % 10) * 10 ^ ds.length + ds.foldl (fun acc c => 10 * acc + (c.toNat - 48)) 0 := by
      rw [List.foldl_cons, foldl_numeral, hd.2]
      ring
    rw [Nat.toDigitsCore]
    by_cases h0 : n / 10 = 0
    · simp only [h0, if_true]
      refine ⟨hds2, ?_, by simp⟩
      rw [hval]
      have : n % 10 = n := by omega
      rw [this]
    · simp only [h0, if_false]
      obtain ⟨h1, h2, h3⟩ := ih (n / 10) (Nat.digitChar (n % 10) :: ds) (by omega) hds2
      refine ⟨h1, ?_, ?_⟩
      · rw [h2, hval, List.length_cons, pow_succ]
        have e : n * 10 ^ ds.length = (10 * (n / 10) + n % 10) * 10 ^ ds.length := by
          rw [Nat.div_add_mod n 10]
        rw [e]
        ring
      · simp only [List.length_cons] at h3
        omega

theorem repr_numeral (n : Nat) :
    (∀ c, c ∈ (toString n).data → c.isDigit = true) ∧ numeralValue (toString n) = n ∧
      1 ≤ (toString n).length := by
  obtain ⟨h1, h2, h3⟩ := toDigitsCore_numeral (n + 1) n [] (by omega) (by simp)
  have hdata : (toString n).data = Nat.toDigitsCore 10 (n + 1) n [] := rfl
  refine ⟨by rw [hdata]; exact h1, ?_, ?_⟩
  · unfold numeralValue
    rw [hdata, h2]
    simp
  · have : (toString n).length = (Nat.toDigitsCore 10 (n + 1) n []).length := rfl
    rw [this]
    simp only [List.length_nil] at h3
    omega

theorem foldl_numeral_zeros (j : Nat) (l : List Char) :
    (List.replicate j '0' ++ l).foldl (fun acc c => 10 * acc + (c.toNat - 48)) 0 =
      l.foldl (fun acc c => 10 * acc + (c.toNat - 48)) 0 := by
  induction j with
  | zero => simp
  | succ j ih =>
    rw [List.replicate_succ, List.cons_append, List.foldl_cons]
    have : 10 * 0 + (('0' : Char).toNat - 48) = 0 := by decide
    rw [this]
    exact ih

theorem padStart_numeral (n : Nat) :
    IsNumeral (padStart (toString n) 2 '0') ∧
      numeralValue (padStart (toString n) 2 '0') = n ∧
      ((toString n).length ≤ 2 → (padStart (toString n) 2 '0').length = 2) := by
  obtain ⟨hdig, hval, hlen⟩ := repr_numeral n
  have hdata : (padStart (toString n) 2 '0').data =
      List.replicate (2 - (toString n).length) '0' ++ (toString n).data := rfl
  have hlength : (padStart (toString n) 2 '0').length =
      (2 - (toString n).length) + (toString n).length := by
    unfold padStart
    rw [String.length_append, String.length_mk, List.length_replicate]
  refine ⟨⟨by rw [hlength]; omega, fun c hc => ?_⟩, ?_, fun h => by rw [hlength]; omega⟩
  · rw [hdata] at hc
    rcases List.mem_append.1 hc with hc | hc
    · rw [(List.mem_replicate.1 hc).2]
      decide
    · exact hdig c hc
  · unfold numeralValue at hval ⊢
    rw [hdata, foldl_numeral_zeros]
    exact hval

theorem repr_length_small : ∀ k, k < 60 → (toString k).length ≤ 2 := by
  decide

/-- C18. Elapsed-time formatting: for every integer `ms ≥ 0`, with
`sec = floor(ms / 1000)`, `formatTime(ms)` is `H:M:S` where the three fields are
the decimal numerals of `sec / 3600`, `sec % 3600 / 60` and `sec % 60`
left-padded with zeros to two characters: each is a string of at least two
digits, `M` and `S` have exactly two digits and are at most 59, and
`3600·H + 60·M + S = sec`. -/
theorem formatTime_spec (ms : Nat) :
    ∃ h m s : String, formatTime (ms : ℚ) = h ++ ":" ++ m ++ ":" ++ s ∧
      h = padStart (toString (ms / 1000 / 3600)) 2 '0' ∧
      m = padStart (toString (ms / 1000 % 3600 / 60)) 2 '0' ∧
      s = padStart (toString (ms / 1000 % 60)) 2 '0' ∧
      IsNumeral h ∧ IsNumeral m ∧ IsNumeral s ∧ m.length = 2 ∧ s.length = 2 ∧
      numeralValue m ≤ 59 ∧ numeralValue s ≤ 59 ∧
      3600 * numeralValue h + 60 * numeralValue m + numeralValue s = ms / 1000 := by
  have hfloor : Int.floor ((ms : ℚ) / 1000) = ((ms / 1000 : Nat) : Int) := by
    have := Rat.floor_natCast_div_natCast ms 1000
    simpa using this
  have hH := padStart_numeral (ms / 1000 / 3600)
  have hM := padStart_numeral (ms / 1000 % 3600 / 60)
  have hS := padStart_numeral (ms / 1000 % 60)
  have hMlt : ms / 1000 % 3600 / 60 < 60 := by omega
  have hSlt : ms / 1000 % 60 < 60 := by omega
  refine ⟨_, _, _, ?_, rfl, rfl, rfl, hH.1, hM.1, hS.1,
    hM.2.2 (repr_length_small _ hMlt), hS.2.2 (repr_length_small _ hSlt), ?_, ?_, ?_⟩
  · unfold formatTime
    rw [hfloor]
    rfl
  · rw [hM.2.1]; omega
  · rw [hS.2.1]; omega
  · rw [hH.2.1, hM.2.1, hS.2.1]
    omega

/-- An elapsed time of 1 h 2 min 3 s, and the last second before 100 hours. -/
theorem formatTime_examples :
    formatTime 3723000 = "01:02:03" ∧ formatTime 359999999 = "99:59:59" := by
  refine ⟨by decide!, by decide!⟩


end VehicleSim
